import Mathlib

set_option maxRecDepth 100000

/-!
Verification of the xiangqi board/move-generation core
(`position.cpp` second revision, `movegen.cpp`, `types.h`).

The board is the 11 x 14 sentinel-padded mailbox described in
`position.h` and the `COORDINATES` table: playable squares occupy
rows 2..11 and columns 1..9 of the grid, every other cell holds the
`OFFBOARD` sentinel.  Machine integers are modelled as `Int`/`Nat`
(no arithmetic in the translated code can overflow 64-bit ranges on
the inputs considered).
-/

namespace XSF

/-! ### Piece encoding (from `types.h`, enum `XQPiece` / `PieceToChar`) -/

def NO_PIECE : Nat := 0
def W_PAWN : Nat := 1
def W_ADVISOR : Nat := 2
def W_BISHOP : Nat := 3
def W_KNIGHT : Nat := 4
def W_CANNON : Nat := 5
def W_ROOK : Nat := 6
def W_KING : Nat := 7
def B_PAWN : Nat := 8
def B_ADVISOR : Nat := 9
def B_BISHOP : Nat := 10
def B_KNIGHT : Nat := 11
def B_CANNON : Nat := 12
def B_ROOK : Nat := 13
def B_KING : Nat := 14
def OFFBOARD : Nat := 15

def WHITE : Nat := 0
def BLACK : Nat := 1
def NO_COLOR : Nat := 2

/-- Piece-type codes (from `types.h`, enum `XQPieceType`). -/
def PAWN : Nat := 0
def ADVISOR : Nat := 1
def BISHOP : Nat := 2
def KNIGHT : Nat := 3
def CANNON : Nat := 4
def ROOK : Nat := 5
def KING : Nat := 6

/-- Map piece to its type (from `types.h`, array `XQ_PIECE_TYPE`; the
15-entry array is only ever indexed by pieces below `OFFBOARD`). -/
def PIECE_TYPE (p : Nat) : Nat :=
  [0, 0, 1, 2, 3, 4, 5, 6, 0, 1, 2, 3, 4, 5, 6].getD p 0

/-- Map piece to its color (from `types.h`, array `XQ_PIECE_COLOR`). -/
def PIECE_COLOR (p : Nat) : Nat :=
  [2, 0, 0, 0, 0, 0, 0, 0, 1, 1, 1, 1, 1, 1, 1].getD p 2

/-! ### Board geometry

`SQUARE_NB` for the xiangqi build, the rank/file bounds and the offset
tables are declared in a header that is not part of the given sources
(only their uses in `position.cpp` / `movegen.cpp` are).  They are
modelled from the spec here. -/

/-- Modelled from the spec: the board is a one-dimensional padded grid,
row length 11, 14 rows, hence 154 cells (`SQUARE_NB`). -/
def SQUARE_NB : Int := 154

/-- A square of the real 9 x 10 board: rows 2..11, columns 1..9 of the
mailbox.  This is exactly the set of cells the `COORDINATES` table in
`position.cpp` does not mark `"xx"`. -/
def isPlayable (i : Int) : Bool :=
  0 ≤ i && i < 154 && 2 ≤ i / 11 && i / 11 ≤ 11 && 1 ≤ i % 11 && i % 11 ≤ 9

/-- Modelled from the spec: orthogonal deltas are plus-minus 1 (file) and
plus-minus 11 (rank, the row length).  The missing header declares this as
`ORTHOGONALS`; the order of the four directions is not observable. -/
def ORTHOGONALS : Nat → Int
  | 0 => -11 | 1 => -1 | 2 => 1 | 3 => 11
  | _ => 0

/-- Modelled from the spec: diagonal deltas are sums of one rank delta and
one file delta (`DIAGONALS` in the missing header). -/
def DIAGONALS : Nat → Int
  | 0 => -12 | 1 => -10 | 2 => 10 | 3 => 12
  | _ => 0

/-- Modelled from the spec: knight deltas are (leg delta, landing delta)
pairs; for generation the leg is the orthogonal step `ORTHOGONALS i` and
the two landings continue one diagonal step outward
(`KNIGHT_MOVE_OFFSETS` in the missing header, indexed in step with
`ORTHOGONALS`). -/
def KNIGHT_MOVE_OFFSETS : Nat → Nat → Int
  | 0, 0 => -23 | 0, 1 => -21
  | 1, 0 => -13 | 1, 1 => 9
  | 2, 0 => 13  | 2, 1 => -9
  | 3, 0 => 21  | 3, 1 => 23
  | _, _ => 0

/-- Modelled from the spec: for attack detection the blocking leg is the
diagonal neighbour `DIAGONALS i` of the attacked square, and the two
knights it blocks stand at the matching landing deltas
(`KNIGHT_ATTACK_OFFSETS` in the missing header, indexed in step with
`DIAGONALS`). -/
def KNIGHT_ATTACK_OFFSETS : Nat → Nat → Int
  | 0, 0 => -23 | 0, 1 => -13
  | 1, 0 => -21 | 1, 1 => -9
  | 2, 0 => 21  | 2, 1 => 9
  | 3, 0 => 23  | 3, 1 => 13
  | _, _ => 0

/-- Modelled from the spec: elephant deltas are the four diagonal
two-step jumps, whose intermediate eye is the single diagonal step
(`BISHOP_MOVE_OFFSETS` in the missing header, indexed in step with
`DIAGONALS`). -/
def BISHOP_MOVE_OFFSETS : Nat → Int := fun i => 2 * DIAGONALS i

/-- Modelled from the spec: pawn deltas are color-dependent, direction 0
being the forward step (red moves toward larger row indices) and the two
sideways steps following (`PAWN_MOVE_OFFSETS` in the missing header). -/
def PAWN_MOVE_OFFSETS : Nat → Nat → Int
  | 0, 0 => 11 | 0, 1 => -1 | 0, 2 => 1
  | 1, 0 => -11 | 1, 1 => -1 | 1, 2 => 1
  | _, _ => 0

/-- Modelled from the spec: the reverse offsets from which an enemy pawn
could have stepped onto the square, two per color per the caller's loop
bound (`PAWN_ATTACK_OFFSETS` in the missing header).  Only the entry
count and the fact that the offsets stay within one knight-radius of the
square matter for the claims below. -/
def PAWN_ATTACK_OFFSETS : Nat → Nat → Int
  | 0, 0 => -11 | 0, 1 => -1
  | 1, 0 => 11 | 1, 1 => 1
  | _, _ => 0

/-- Modelled from the spec: the per-color zone grid classifies each cell
as 0 (off-board or past the river for that color), 1 (own general area)
or 2 (own 3 x 3 palace-center).  Red (color 0) owns rows 2..6 with palace
rows 2..4, columns 4..6; black owns rows 7..11 with palace rows 9..11
(`BOARD_ZONES` in the missing header). -/
def BOARD_ZONES (side : Nat) (s : Int) : Nat :=
  if 0 ≤ s ∧ s < 154 then
    let r := s / 11
    let c := s % 11
    if 1 ≤ c ∧ c ≤ 9 then
      if side = 0 then
        if 2 ≤ r ∧ r ≤ 6 then (if r ≤ 4 ∧ 4 ≤ c ∧ c ≤ 6 then 2 else 1) else 0
      else
        if 7 ≤ r ∧ r ≤ 11 then (if 9 ≤ r ∧ 4 ≤ c ∧ c ≤ 6 then 2 else 1) else 0
    else 0
  else 0

/-! ### Moves and state records -/

/-- Modelled from the spec: a move is the bijective packing of
(source, target, source piece, captured piece, capture flag) into one
value, with accessors `getSourceSquare` and friends.  Since
`decode(encode(x)) = x` for all in-range fields, the move value is
modelled as the record of its five fields (the packing bijection is
immaterial to every claim below; a real move's encoding is nonzero
because its source square is at least 23). -/
structure Move where
  sourceSquare : Int
  targetSquare : Int
  sourcePiece : Nat
  targetPiece : Nat
  captureFlag : Nat
deriving DecidableEq

def getSourceSquare (m : Move) : Int := m.sourceSquare
def getTargetSquare (m : Move) : Int := m.targetSquare
def getSourcePiece (m : Move) : Nat := m.sourcePiece
def getTargetPiece (m : Move) : Nat := m.targetPiece
def getCaptureFlag (m : Move) : Nat := m.captureFlag

/-- `StateInfo` (from `position.h`): the fields restored on undo.  The
`previous` back-pointer is represented by the position's record stack
below. -/
structure StateRec where
  hashKey : Nat
  rule60 : Int
deriving DecidableEq

/-- The `Position` data members used by the xiangqi code
(from `position.h`): board array, ply counters, side to move, rule-60
counter, hash key, the two king-square cache entries, and the state
pointer.  The caller-owned `StateInfo` chain reached from `st` is
modelled as `stTop` (the record `st` points at) plus `stRest` (the
records reachable through `previous`, most recent first). -/
structure Position where
  board : Int → Nat
  sideToMove : Nat
  searchPly : Int
  gamePly : Int
  rule60 : Int
  hashKey : Nat
  kingW : Int
  kingB : Int
  stTop : StateRec
  stRest : List StateRec

/-- `kingSquare[c]` read access (`c` is 0 or 1). -/
def kingSq (pos : Position) (c : Nat) : Int :=
  if c = 0 then pos.kingW else pos.kingB

/-- A single array store `board[s] = p`. -/
def setSq (b : Int → Nat) (s : Int) (p : Nat) : Int → Nat :=
  fun i => if i = s then p else b i

/-- Sentinel well-formedness: every cell outside the playable 9 x 10
region holds `OFFBOARD` (the reset loop of `Position::set` establishes
this for the 154 array cells; cells outside the array, which the C code
could only reach through out-of-bounds accesses, are conservatively
given the sentinel value as well). -/
def WFBoard (b : Int → Nat) : Prop :=
  ∀ i : Int, isPlayable i = false → b i = OFFBOARD

/-- Builds a well-formed board from a square/piece association list:
listed playable squares hold their piece, other playable squares are
empty, everything else is the sentinel. -/
def boardOf (l : List (Int × Nat)) : Int → Nat :=
  fun i => if isPlayable i then ((l.lookup i).getD 0) else OFFBOARD

/-! ### Attack detector (`Position::isSquareAttacked`, position.cpp
lines 1534-1574 of the second revision) -/

def knightOf (c : Nat) : Nat := if c = WHITE then W_KNIGHT else B_KNIGHT
def rookOf (c : Nat) : Nat := if c = WHITE then W_ROOK else B_ROOK
def kingOf (c : Nat) : Nat := if c = WHITE then W_KING else B_KING
def cannonOf (c : Nat) : Nat := if c = WHITE then W_CANNON else B_CANNON
def pawnOf (c : Nat) : Nat := if c = WHITE then W_PAWN else B_PAWN

/-- The knight loop of `isSquareAttacked`: for each of the four
`DIAGONALS` legs, if the leg square is empty, test the two matching
`KNIGHT_ATTACK_OFFSETS` landing squares for a knight of color `c`. -/
def knightAttacked (b : Int → Nat) (s : Int) (c : Nat) : Bool :=
  (List.range 4).any fun direction =>
    if b (s + DIAGONALS direction) = NO_PIECE then
      (List.range 2).any fun off =>
        b (s + KNIGHT_ATTACK_OFFSETS direction off) == knightOf c
    else false

/-- One iteration chain of the while loop in the king/rook/cannon
section of `isSquareAttacked`, walking square `t` outward by `d` with
`jumpOver` non-empty squares seen so far.  The C loop runs until the
`OFFBOARD` sentinel; the fuel argument only bounds the recursion and is
never exhausted on a well-formed board. -/
def rayAtt (b : Int → Nat) (c : Nat) (d : Int) : Nat → Int → Nat → Bool
  | 0, _, _ => false
  | fuel + 1, t, jumpOver =>
    if b t = OFFBOARD then false
    else if jumpOver = 0 ∧ (b t = rookOf c ∨ b t = kingOf c) then true
    else
      let j := if b t ≠ NO_PIECE then jumpOver + 1 else jumpOver
      if j = 2 ∧ b t = cannonOf c then true
      else rayAtt b c d fuel (t + d) j

/-- The king/rook/cannon loop of `isSquareAttacked` over the four
orthogonal rays. -/
def lineAttacked (b : Int → Nat) (s : Int) (c : Nat) : Bool :=
  (List.range 4).any fun direction =>
    rayAtt b c (ORTHOGONALS direction) 154 (s + ORTHOGONALS direction) 0

/-- The pawn loop of `isSquareAttacked`. -/
def pawnAttacked (b : Int → Nat) (s : Int) (c : Nat) : Bool :=
  (List.range 2).any fun direction =>
    b (s + PAWN_ATTACK_OFFSETS c direction) == pawnOf c

/-- `Position::isSquareAttacked(s, c)`: is square `s` attacked by the
side of color `c`? -/
def isSquareAttacked (b : Int → Nat) (s : Int) (c : Nat) : Bool :=
  knightAttacked b s c || lineAttacked b s c || pawnAttacked b s c

/-! ### Move generator (`movegen.cpp`) -/

/-- `pushMove` (movegen.cpp lines 27-44): emit at most one move for the
candidate (source, target); rejects friendly-occupied targets, encodes
a capture when the target is occupied, suppresses quiet moves in
captures-only mode.  Returns the emitted moves (appended to the buffer
by the caller). -/
def pushMove (side : Nat) (sourceSquare targetSquare : Int)
    (sourcePiece targetPiece : Nat) (onlyCaptures : Bool) : List Move :=
  if targetPiece = NO_PIECE ∨ PIECE_COLOR targetPiece = side ^^^ 1 then
    if targetPiece ≠ NO_PIECE then
      [⟨sourceSquare, targetSquare, sourcePiece, targetPiece, 1⟩]
    else if onlyCaptures = false then
      [⟨sourceSquare, targetSquare, sourcePiece, targetPiece, 0⟩]
    else []
  else []

/-- The pawn block of `generateMoves`: the forward direction is always
processed; the loop `break`s after direction 0 when the zone grid marks
the source square as on its own side of the river. -/
def pawnBlockMoves (b : Int → Nat) (side : Nat) (s : Int) (cap : Bool) : List Move :=
  let dirs : List Nat := if BOARD_ZONES side s ≠ 0 then [0] else [0, 1, 2]
  dirs.flatMap fun direction =>
    let t := s + PAWN_MOVE_OFFSETS side direction
    let tp := b t
    if tp ≠ OFFBOARD then pushMove side s t (b s) tp cap else []

/-- The king/advisor block of `generateMoves`: orthogonal offsets for
the king, diagonal for the advisor; only palace-center (zone 2)
destinations are considered. -/
def kingAdvisorBlockMoves (b : Int → Nat) (side : Nat) (s : Int)
    (pieceType : Nat) (cap : Bool) : List Move :=
  (List.range 4).flatMap fun direction =>
    let off := if pieceType = KING then ORTHOGONALS direction else DIAGONALS direction
    let t := s + off
    let tp := b t
    if BOARD_ZONES side t = 2 then pushMove side s t (b s) tp cap else []

/-- The bishop block of `generateMoves`: diagonal two-step jumps with an
empty eye square, restricted to the mover's own zone. -/
def bishopBlockMoves (b : Int → Nat) (side : Nat) (s : Int) (cap : Bool) : List Move :=
  (List.range 4).flatMap fun direction =>
    let t := s + BISHOP_MOVE_OFFSETS direction
    let eye := s + DIAGONALS direction
    let tp := b t
    if BOARD_ZONES side t ≠ 0 ∧ b eye = NO_PIECE then
      pushMove side s t (b s) tp cap
    else []

/-- The knight block of `generateMoves`: each orthogonal leg square must
be empty before its two landing squares are tried. -/
def knightBlockMoves (b : Int → Nat) (side : Nat) (s : Int) (cap : Bool) : List Move :=
  (List.range 4).flatMap fun direction =>
    if b (s + ORTHOGONALS direction) = NO_PIECE then
      (List.range 2).flatMap fun off =>
        let t := s + KNIGHT_MOVE_OFFSETS direction off
        let tp := b t
        if tp ≠ OFFBOARD then pushMove side s t (b s) tp cap else []
    else []

/-- The while loop of the rook/cannon block of `generateMoves`, walking
square `t` outward by `d` with `jumpOver` non-empty squares counted so
far.  Rook candidates (and quiet cannon candidates on empty squares)
are pushed while `jumpOver` is 0; a cannon capture candidate is pushed
when the updated count reaches 2, and that ends the ray.  The C loop
runs until the `OFFBOARD` sentinel; the fuel only bounds the recursion
and is never exhausted on a well-formed board. -/
def rcRay (b : Int → Nat) (side : Nat) (pieceType : Nat) (s : Int) (d : Int)
    (cap : Bool) : Nat → Int → Nat → List Move
  | 0, _, _ => []
  | fuel + 1, t, jumpOver =>
    if b t = OFFBOARD then []
    else
      let tp := b t
      let pushed :=
        if jumpOver = 0 then
          if pieceType = ROOK then pushMove side s t (b s) tp cap
          else if pieceType = CANNON ∧ tp = NO_PIECE then pushMove side s t (b s) tp cap
          else []
        else []
      let j := if tp ≠ NO_PIECE then jumpOver + 1 else jumpOver
      if tp ≠ NO_PIECE ∧ pieceType = CANNON ∧ j = 2 then
        pushed ++ pushMove side s t (b s) tp cap
      else
        pushed ++ rcRay b side pieceType s d cap fuel (t + d) j

/-- The rook/cannon block of `generateMoves` over the four orthogonal
rays. -/
def rookCannonBlockMoves (b : Int → Nat) (side : Nat) (s : Int)
    (pieceType : Nat) (cap : Bool) : List Move :=
  (List.range 4).flatMap fun direction =>
    rcRay b side pieceType s (ORTHOGONALS direction) cap 154 (s + ORTHOGONALS direction) 0

/-- The body of `generateMoves` for one source square: skip sentinel
cells and pieces of the wrong color, then dispatch on the piece type
(the five type blocks appear in source order and are mutually
exclusive). -/
def movesFromSquare (b : Int → Nat) (side : Nat) (s : Int) (cap : Bool) : List Move :=
  if b s ≠ OFFBOARD then
    let piece := b s
    let pieceType := PIECE_TYPE piece
    let pieceColor := PIECE_COLOR piece
    if pieceColor = side then
      (if pieceType = PAWN then pawnBlockMoves b side s cap else []) ++
      (if pieceType = KING ∨ pieceType = ADVISOR then
        kingAdvisorBlockMoves b side s pieceType cap else []) ++
      (if pieceType = BISHOP then bishopBlockMoves b side s cap else []) ++
      (if pieceType = KNIGHT then knightBlockMoves b side s cap else []) ++
      (if pieceType = ROOK ∨ pieceType = CANNON then
        rookCannonBlockMoves b side s pieceType cap else [])
    else []
  else []

/-- `generateMoves` (movegen.cpp lines 47-147): all pseudo-legal moves
of the side to move, source squares ascending. -/
def generateMoves (pos : Position) (onlyCaptures : Bool) : List Move :=
  (List.range 154).flatMap fun n =>
    movesFromSquare pos.board pos.sideToMove (Int.ofNat n) onlyCaptures

/-! ### Move applier (`Position::make_move` / `Position::undo_move` /
null move, position.cpp lines 1580-1684 of the second revision) -/

/-- `Position::undo_move` (lines 1638-1669): decrement the plies, put
the source piece back, empty the target square, rematerialize the
captured piece when the capture flag is set, restore the mover's king
cache entry if a king returned, flip the side to move, load `rule60`
and `hashKey` from the record `st` currently points at, then pop the
record chain.  (The C code pops by `st = st->previous`; popping an
empty chain dereferences a null pointer, so the default record supplied
to `headD` below is never consulted in a legal LIFO use.) -/
def undo_move (pos : Position) (move : Move) : Position :=
  let sourceSquare := getSourceSquare move
  let targetSquare := getTargetSquare move
  let sourcePiece := getSourcePiece move
  let targetPiece := getTargetPiece move
  let b1 := setSq (setSq pos.board sourceSquare sourcePiece) targetSquare NO_PIECE
  let b2 := if getCaptureFlag move ≠ 0 then setSq b1 targetSquare targetPiece else b1
  let kingBack := b2 sourceSquare = W_KING ∨ b2 sourceSquare = B_KING
  { board := b2
    sideToMove := pos.sideToMove ^^^ 1
    searchPly := pos.searchPly - 1
    gamePly := pos.gamePly - 1
    rule60 := pos.stTop.rule60
    hashKey := pos.stTop.hashKey
    kingW := if kingBack ∧ pos.sideToMove ^^^ 1 = 0 then sourceSquare else pos.kingW
    kingB := if kingBack ∧ pos.sideToMove ^^^ 1 ≠ 0 then sourceSquare else pos.kingB
    stTop := pos.stRest.headD ⟨0, 0⟩
    stRest := pos.stRest.tail }

/-- `Position::make_move` (lines 1580-1632): increment the plies, save
the current `hashKey`/`rule60` into the record `st` points at, link the
caller's record `newSt` in front (the `memcpy` of
`offsetof(StateInfo, hashKey)` = 0 bytes copies nothing, so `newSt`
keeps whatever `hashKey`/`rule60` values the caller's storage held),
move the piece, reset or bump `rule60`, update the mover's king cache
entry, flip the side to move, and finally test the mover's king: if it
is attacked by the new side to move the move is taken back via
`undo_move` and `false` is returned. -/
def make_move (pos : Position) (move : Move) (newSt : StateRec) : Bool × Position :=
  let savedTop : StateRec := { hashKey := pos.hashKey, rule60 := pos.rule60 }
  let sourceSquare := getSourceSquare move
  let targetSquare := getTargetSquare move
  let sourcePiece := getSourcePiece move
  let captureFlag := getCaptureFlag move
  let b1 := setSq (setSq pos.board targetSquare sourcePiece) sourceSquare NO_PIECE
  let kingMoved := b1 targetSquare = W_KING ∨ b1 targetSquare = B_KING
  let posAfter : Position :=
    { board := b1
      sideToMove := pos.sideToMove ^^^ 1
      searchPly := pos.searchPly + 1
      gamePly := pos.gamePly + 1
      rule60 := if captureFlag ≠ 0 then 0 else pos.rule60 + 1
      hashKey := pos.hashKey
      kingW := if kingMoved ∧ pos.sideToMove = 0 then targetSquare else pos.kingW
      kingB := if kingMoved ∧ pos.sideToMove ≠ 0 then targetSquare else pos.kingB
      stTop := newSt
      stRest := savedTop :: pos.stRest }
  if isSquareAttacked posAfter.board (kingSq posAfter (posAfter.sideToMove ^^^ 1))
      posAfter.sideToMove then
    (false, undo_move posAfter move)
  else (true, posAfter)

/-- `Position::do_null_move` (lines 1677-1680): the body is only the
warning-suppression statement `if (newSt.hashKey) {}`; nothing is
modified. -/
def do_null_move (pos : Position) (newSt : StateRec) : Position :=
  let _ := newSt.hashKey
  pos

/-- `Position::undo_null_move` (lines 1682-1684): empty body. -/
def undo_null_move (pos : Position) : Position := pos

/-- `Position::set_state` (lines 1517-1522): assigns 0 to the hash key
of the record `st` points at (the `rule50` line is commented out). -/
def set_state (pos : Position) : Position :=
  { pos with stTop := { pos.stTop with hashKey := 0 } }

/-! ### Position setup (`Position::set`, position.cpp lines 1374-1509
of the second revision)

The `std::istringstream` with `noskipws` is modelled as the pair of the
last extracted character (`tok`) and the unread characters (`rest`);
extraction from an exhausted stream leaves the character unchanged, and
a failed arithmetic extraction writes 0 and poisons the stream, exactly
as in C++11. -/

/-- The `CHAR_TO_PIECE` table built at the top of `Position::set`
(zero-initialized, so unlisted characters map to `NO_PIECE`). -/
def CHAR_TO_PIECE : Char → Nat
  | 'P' => 1 | 'A' => 2 | 'B' => 3 | 'E' => 3 | 'N' => 4 | 'H' => 4
  | 'C' => 5 | 'R' => 6 | 'K' => 7
  | 'p' => 8 | 'a' => 9 | 'b' => 10 | 'e' => 10 | 'n' => 11 | 'h' => 11
  | 'c' => 12 | 'r' => 13 | 'k' => 14
  | _ => 0

/-- `ss >> token` under `noskipws`: read one character; on an exhausted
stream the variable keeps its old value. -/
def readCh (tok : Char) (rest : List Char) : Char × List Char :=
  match rest with
  | [] => (tok, [])
  | c :: r => (c, r)

def isSpaceCh (c : Char) : Bool :=
  c = ' ' || c = '\t' || c = '\n' || c = '\x0b' || c = '\x0c' || c = '\x0d'

/-- Mutable state threaded through the piece-placement loop of
`Position::set`: the board, the two king cache entries and the stream. -/
structure ParseSt where
  b : Int → Nat
  kW : Int
  kB : Int
  tok : Char
  rest : List Char

/-- The inner file loop of the placement section of `Position::set` for
rank `r`: each iteration handles one grid cell `11*r + f` (sentinel
cells are skipped without consuming input), placing a letter piece,
skipping a digit run of empty squares (stepping the file index), and
consuming a rank separator; the file index is finally incremented by
the `for` statement.  The C loop is bounded by the file index reaching
11; the fuel only bounds the recursion (the C loop can fail to
terminate on malformed input that leaves the file index stationary with
an exhausted stream, which the fuel cuts off). -/
def parseFiles (r : Int) : Nat → Int → ParseSt → ParseSt
  | 0, _, st => st
  | fuel + 1, f, st =>
    if f > 10 then st
    else
      let s := 11 * r + f
      if st.b s ≠ OFFBOARD then
        let st1 :=
          if ('a' ≤ st.tok ∧ st.tok ≤ 'z') ∨ ('A' ≤ st.tok ∧ st.tok ≤ 'Z') then
            let kW1 := if st.tok = 'K' then s else st.kW
            let kB1 := if st.tok = 'k' then s else st.kB
            let b1 := setSq st.b s (CHAR_TO_PIECE st.tok)
            let tr := readCh st.tok st.rest
            { b := b1, kW := kW1, kB := kB1, tok := tr.1, rest := tr.2 }
          else st
        let fd :=
          if '0' ≤ st1.tok ∧ st1.tok ≤ '9' then
            let offset : Int := (st1.tok.toNat : Int) - ('0'.toNat : Int)
            ((if st1.b s = NO_PIECE then f - 1 else f) + offset, true)
          else (f, false)
        let st2 :=
          if fd.2 then
            let tr := readCh st1.tok st1.rest
            { st1 with tok := tr.1, rest := tr.2 }
          else st1
        let st3 :=
          if st2.tok = '/' then
            let tr := readCh st2.tok st2.rest
            { st2 with tok := tr.1, rest := tr.2 }
          else st2
        parseFiles r fuel (fd.1 + 1) st3
      else parseFiles r fuel (f + 1) st

/-- The outer rank loop of the placement section: ranks 13 down to 0. -/
def parseRanks : Nat → ParseSt → ParseSt
  | 0, st => st
  | n + 1, st => parseRanks n (parseFiles (Int.ofNat n) 400 0 st)

/-- The `while ((ss >> token) && !isspace(token)) {}` castling-field
skip: consume characters until a whitespace character or the end of the
stream. -/
def skipField : Nat → Char → List Char → Char × List Char
  | 0, tok, rest => (tok, rest)
  | _ + 1, tok, [] => (tok, [])
  | fuel + 1, _, c :: r => if isSpaceCh c then (c, r) else skipField fuel c r

def skipWs : List Char → List Char
  | [] => []
  | c :: r => if isSpaceCh c then skipWs r else c :: r

def readDigits : List Char → Nat → Nat × List Char
  | [], acc => (acc, [])
  | c :: r, acc =>
    if '0' ≤ c ∧ c ≤ '9' then readDigits r (acc * 10 + (c.toNat - '0'.toNat))
    else (acc, c :: r)

/-- `ss >> std::skipws >> v` for an `int`: skip whitespace, accept an
optional sign followed by digits; on failure the value is 0 and the
success flag is cleared (C++11 semantics). -/
def parseInt (l : List Char) : Int × Bool × List Char :=
  let l1 := skipWs l
  match l1 with
  | '-' :: (c :: r) =>
    if '0' ≤ c ∧ c ≤ '9' then
      let dr := readDigits (c :: r) 0
      (-(dr.1 : Int), true, dr.2)
    else (0, false, c :: r)
  | c :: r =>
    if '0' ≤ c ∧ c ≤ '9' then
      let dr := readDigits (c :: r) 0
      ((dr.1 : Int), true, dr.2)
    else (0, false, c :: r)
  | [] => (0, false, [])

/-- `Position::set(fenStr, si)`: zero the position and the caller's
record (`memset`), reset the board to empty-or-sentinel, reset the king
cache to `SQ_NONE` (64) and the plies, run the placement parse, read
the active color, skip the castling field, zero the record's hash key
(`set_state`), then read the halfmove clock into the record's `rule60`
and the fullmove number into `gamePly` and normalize the latter.  The
position's own `rule60` stays at its `memset` value 0, and its
`hashKey` is never written after the `memset`.  An uninitialized
`token` before the first extraction is modelled as a blank. -/
def set (fen : String) : Position :=
  let b0 : Int → Nat := fun i => if isPlayable i then NO_PIECE else OFFBOARD
  let tr0 := readCh ' ' fen.data
  let stA := parseRanks 14 { b := b0, kW := 64, kB := 64, tok := tr0.1, rest := tr0.2 }
  let trC := readCh stA.tok stA.rest
  let side := if trC.1 = 'b' then BLACK else WHITE
  let trD := readCh trC.1 trC.2
  let trE := skipField 1000 trD.1 trD.2
  let p1 := parseInt trE.2
  let p2 := if p1.2.1 then parseInt p1.2.2 else (0, false, p1.2.2)
  { board := stA.b
    sideToMove := side
    searchPly := 0
    gamePly := max (2 * (p2.1 - 1)) 0 + (if side = BLACK then 1 else 0)
    rule60 := 0
    hashKey := 0
    kingW := stA.kW
    kingB := stA.kB
    stTop := { hashKey := 0, rule60 := p1.1 }
    stRest := [] }

/-! ### Specification-side predicates

These restate claim sentences in their own words, for comparison with
the translated code above. -/

/-- The claim's reading of knight attack detection, with ORTHOGONAL leg
squares adjacent to `s`: an empty orthogonal leg admits the two landing
squares of the generator's knight table. -/
def knightAttackedOrthoLegs (b : Int → Nat) (s : Int) (c : Nat) : Bool :=
  (List.range 4).any fun direction =>
    if b (s + ORTHOGONALS direction) = NO_PIECE then
      (List.range 2).any fun off =>
        b (s + KNIGHT_MOVE_OFFSETS direction off) == knightOf c
    else false

/-- The amended reading of knight attack detection, phrased
geometrically: some diagonal neighbour of `s` (rank step `dr`, file
step `dc`) is empty and an attacking knight stands on one of the two
squares whose jump it blocks. -/
def knightAttackedDiagSpec (b : Int → Nat) (s : Int) (c : Nat) : Prop :=
  ∃ dr dc : Int, (dr = 1 ∨ dr = -1) ∧ (dc = 1 ∨ dc = -1) ∧
    b (s + 11 * dr + dc) = NO_PIECE ∧
    (b (s + 22 * dr + dc) = knightOf c ∨ b (s + 11 * dr + 2 * dc) = knightOf c)

/-- All squares strictly between `s` and `s + k*d` on the ray are
empty. -/
def emptyUpTo (b : Int → Nat) (s d : Int) (k : Nat) : Prop :=
  ∀ j : Nat, j < k → 1 ≤ j → b (s + (j : Int) * d) = NO_PIECE

/-- Spec-side line attack, rook/king part: the first non-empty square
along the ray from `s` holds the attacker's rook or king (the
flying-general reading). -/
def specRayRookKing (b : Int → Nat) (s d : Int) (c : Nat) : Prop :=
  ∃ k : Nat, 1 ≤ k ∧ emptyUpTo b s d k ∧
    (b (s + (k : Int) * d) = rookOf c ∨ b (s + (k : Int) * d) = kingOf c)

/-- Spec-side line attack, cannon part: behind exactly one screen, the
next non-empty square along the ray holds the attacker's cannon. -/
def specRayCannon (b : Int → Nat) (s d : Int) (c : Nat) : Prop :=
  ∃ k1 k2 : Nat, 1 ≤ k1 ∧ k1 < k2 ∧ emptyUpTo b s d k1 ∧
    b (s + (k1 : Int) * d) ≠ NO_PIECE ∧ b (s + (k1 : Int) * d) ≠ OFFBOARD ∧
    (∀ j : Nat, k1 < j → j < k2 → b (s + (j : Int) * d) = NO_PIECE) ∧
    b (s + (k2 : Int) * d) = cannonOf c

/-- Spec-side pawn generation (claim C8): some pawn of the side to move
at `s` steps along direction `dir`, where the forward direction 0 is
always available and the sideways directions 1 and 2 only from a square
the zone grid marks as past the river; the target is on-board and not
friendly-occupied, and the capture flag records enemy occupancy. -/
def pawnMoveSpec (pos : Position) (m : Move) : Prop :=
  ∃ s : Int, ∃ dir : Nat, 0 ≤ s ∧ s < 154 ∧
    PIECE_TYPE (pos.board s) = PAWN ∧ PIECE_COLOR (pos.board s) = pos.sideToMove ∧
    dir < 3 ∧ (1 ≤ dir → BOARD_ZONES pos.sideToMove s = 0) ∧
    pos.board (s + PAWN_MOVE_OFFSETS pos.sideToMove dir) ≠ OFFBOARD ∧
    PIECE_COLOR (pos.board (s + PAWN_MOVE_OFFSETS pos.sideToMove dir)) ≠ pos.sideToMove ∧
    m = ⟨s, s + PAWN_MOVE_OFFSETS pos.sideToMove dir, pos.board s,
         pos.board (s + PAWN_MOVE_OFFSETS pos.sideToMove dir),
         if pos.board (s + PAWN_MOVE_OFFSETS pos.sideToMove dir) ≠ NO_PIECE then 1 else 0⟩

/-! ### Board-access index traces (claim C9)

Each `...Probes` function lists the `board` indices its routine reads
or writes, following the loop structure; within one iteration repeated
reads of the same index appear once, and the candidate reads of a loop
are listed even when an early `return true` in the C code would skip
the remainder, so each list contains every index the routine can
touch. -/

/-- The squares visited by one orthogonal ray walk (both the attack
detector's and the generator's walks advance while the square is not
the sentinel). -/
def rayWalkProbes (b : Int → Nat) (d : Int) : Nat → Int → List Int
  | 0, _ => []
  | fuel + 1, t => t :: (if b t = OFFBOARD then [] else rayWalkProbes b d fuel (t + d))

/-- Indices probed by `isSquareAttacked s c`. -/
def attackProbes (b : Int → Nat) (s : Int) (c : Nat) : List Int :=
  ((List.range 4).flatMap fun i =>
    (s + DIAGONALS i) :: (if b (s + DIAGONALS i) = NO_PIECE then
      [s + KNIGHT_ATTACK_OFFSETS i 0, s + KNIGHT_ATTACK_OFFSETS i 1] else [])) ++
  ((List.range 4).flatMap fun i =>
    rayWalkProbes b (ORTHOGONALS i) 154 (s + ORTHOGONALS i)) ++
  [s + PAWN_ATTACK_OFFSETS c 0, s + PAWN_ATTACK_OFFSETS c 1]

/-- Indices probed by the `generateMoves` body for one source square
(including, in the bishop block, the unconditional
`piece_on(targetSquare)` read that precedes the zone test). -/
def squareProbes (b : Int → Nat) (side : Nat) (s : Int) : List Int :=
  s :: (if b s ≠ OFFBOARD then
    (let pt := PIECE_TYPE (b s)
     if PIECE_COLOR (b s) = side then
       (if pt = PAWN then
          (let dirs : List Nat := if BOARD_ZONES side s ≠ 0 then [0] else [0, 1, 2]
           dirs.map fun dir => s + PAWN_MOVE_OFFSETS side dir)
        else []) ++
       (if pt = KING ∨ pt = ADVISOR then
          (List.range 4).map fun i =>
            s + (if pt = KING then ORTHOGONALS i else DIAGONALS i)
        else []) ++
       (if pt = BISHOP then
          (List.range 4).flatMap fun i => [s + BISHOP_MOVE_OFFSETS i, s + DIAGONALS i]
        else []) ++
       (if pt = KNIGHT then
          (List.range 4).flatMap fun i =>
            (s + ORTHOGONALS i) :: (if b (s + ORTHOGONALS i) = NO_PIECE then
              [s + KNIGHT_MOVE_OFFSETS i 0, s + KNIGHT_MOVE_OFFSETS i 1] else [])
        else []) ++
       (if pt = ROOK ∨ pt = CANNON then
          (List.range 4).flatMap fun i =>
            rayWalkProbes b (ORTHOGONALS i) 154 (s + ORTHOGONALS i)
        else [])
     else [])
    else [])

/-- Indices probed by `generateMoves`. -/
def genProbes (b : Int → Nat) (side : Nat) : List Int :=
  (List.range 154).flatMap fun n => squareProbes b side (Int.ofNat n)

/-- Indices probed by `undo_move`: the restore writes at the move's
source and target (twice on a capture) and the king-cache test's read
of the source square. -/
def undoProbes (move : Move) : List Int :=
  [getSourceSquare move, getTargetSquare move] ++
  (if getCaptureFlag move ≠ 0 then [getTargetSquare move] else []) ++
  [getSourceSquare move]

/-- Indices probed by `make_move`: the two relocation writes, the
king-cache test's read of the target, the legality call's probes on the
mutated board, and the internal undo's probes when the move is taken
back. -/
def makeProbes (pos : Position) (move : Move) : List Int :=
  let b1 := setSq (setSq pos.board (getTargetSquare move) (getSourcePiece move))
    (getSourceSquare move) NO_PIECE
  let kingMoved := b1 (getTargetSquare move) = W_KING ∨ b1 (getTargetSquare move) = B_KING
  let kW1 := if kingMoved ∧ pos.sideToMove = 0 then getTargetSquare move else pos.kingW
  let kB1 := if kingMoved ∧ pos.sideToMove ≠ 0 then getTargetSquare move else pos.kingB
  let ksq := if pos.sideToMove ^^^ 1 ^^^ 1 = 0 then kW1 else kB1
  [getTargetSquare move, getSourceSquare move, getTargetSquare move] ++
  attackProbes b1 ksq (pos.sideToMove ^^^ 1) ++
  (if isSquareAttacked b1 ksq (pos.sideToMove ^^^ 1) then undoProbes move else [])

/-- Indices probed by the file loop of the placement parse: the cell of
each iteration (guard read, placement write, emptiness re-read). -/
def parseFilesProbes (r : Int) : Nat → Int → ParseSt → List Int
  | 0, _, _ => []
  | fuel + 1, f, st =>
    if f > 10 then []
    else
      let s := 11 * r + f
      if st.b s ≠ OFFBOARD then
        let st1 :=
          if ('a' ≤ st.tok ∧ st.tok ≤ 'z') ∨ ('A' ≤ st.tok ∧ st.tok ≤ 'Z') then
            let kW1 := if st.tok = 'K' then s else st.kW
            let kB1 := if st.tok = 'k' then s else st.kB
            let b1 := setSq st.b s (CHAR_TO_PIECE st.tok)
            let tr := readCh st.tok st.rest
            { b := b1, kW := kW1, kB := kB1, tok := tr.1, rest := tr.2 }
          else st
        let fd :=
          if '0' ≤ st1.tok ∧ st1.tok ≤ '9' then
            let offset : Int := (st1.tok.toNat : Int) - ('0'.toNat : Int)
            ((if st1.b s = NO_PIECE then f - 1 else f) + offset, true)
          else (f, false)
        let st2 :=
          if fd.2 then
            let tr := readCh st1.tok st1.rest
            { st1 with tok := tr.1, rest := tr.2 }
          else st1
        let st3 :=
          if st2.tok = '/' then
            let tr := readCh st2.tok st2.rest
            { st2 with tok := tr.1, rest := tr.2 }
          else st2
        s :: parseFilesProbes r fuel (fd.1 + 1) st3
      else s :: parseFilesProbes r fuel (f + 1) st

/-- Indices probed by the rank loop of the placement parse. -/
def parseRanksProbes : Nat → ParseSt → List Int
  | 0, _ => []
  | n + 1, st =>
    parseFilesProbes (Int.ofNat n) 400 0 st ++
    parseRanksProbes n (parseFiles (Int.ofNat n) 400 0 st)

/-- Indices probed by `Position::set`: the reset loop writes cells 0 to
153, then the placement parse probes its cells. -/
def setProbes (fen : String) : List Int :=
  ((List.range 154).map Int.ofNat) ++
  (let b0 : Int → Nat := fun i => if isPlayable i then NO_PIECE else OFFBOARD
   let tr0 := readCh ' ' fen.data
   parseRanksProbes 14 { b := b0, kW := 64, kB := 64, tok := tr0.1, rest := tr0.2 })

/-! ### Concrete inputs for counterexamples and witnesses -/

/-- Red king e0 (27), black king d9 (125), red to move; pre-apply
reversible counter 5, hash key 0. -/
def P1 : Position :=
  { board := boardOf [(27, 7), (125, 14)], sideToMove := 0, searchPly := 0, gamePly := 0,
    rule60 := 5, hashKey := 0, kingW := 27, kingB := 125,
    stTop := ⟨0, 0⟩, stRest := [] }

/-- The generated king step e0-e1. -/
def m1 : Move := ⟨27, 38, 7, 0, 0⟩

/-- Red king e1 (38), black king e9 (126) on the same open file, red to
move. -/
def P2 : Position :=
  { board := boardOf [(38, 7), (126, 14)], sideToMove := 0, searchPly := 0, gamePly := 0,
    rule60 := 5, hashKey := 0, kingW := 38, kingB := 126,
    stTop := ⟨0, 0⟩, stRest := [] }

/-- The generated king step e1-e0, illegal by the flying-general test. -/
def m2 : Move := ⟨38, 27, 7, 0, 0⟩

/-- A lone red advisor on d0 (26), red to move. -/
def P4 : Position :=
  { board := boardOf [(26, 2)], sideToMove := 0, searchPly := 0, gamePly := 0,
    rule60 := 0, hashKey := 0, kingW := 64, kingB := 64,
    stTop := ⟨0, 0⟩, stRest := [] }

/-- Board for the knight-leg counterexample: a red pawn on 71 occupies
the orthogonal neighbour of square 60, the true (diagonal) leg 72 is
empty, and a red knight stands on the landing square 83. -/
def bC6 : Int → Nat := boardOf [(71, 1), (83, 4)]

/-- A red bishop on the corner i9 (130), red to move: the bishop block
probes `board[130 + 24] = board[154]`. -/
def P9 : Position :=
  { board := boardOf [(130, 3), (27, 7), (125, 14)], sideToMove := 0,
    searchPly := 0, gamePly := 0, rule60 := 0, hashKey := 0, kingW := 27, kingB := 125,
    stTop := ⟨0, 0⟩, stRest := [] }

/-- A position built by `set`: black king d9, red king e0, red to
move. -/
def P10 : Position := set "3k5/9/9/9/9/9/9/9/9/4K4 w - - 0 1"

/-- The generated king step e0-e1 in `P10`. -/
def m10 : Move := ⟨27, 38, 7, 0, 0⟩

/-- Red cannon b2 (46), red pawn screen b4 (68), black rook b6 (90):
the cannon capture 46-90 jumps exactly the screen. -/
def P5 : Position :=
  { board := boardOf [(46, 5), (68, 1), (90, 13)], sideToMove := 0,
    searchPly := 0, gamePly := 0, rule60 := 0, hashKey := 0, kingW := 64, kingB := 64,
    stTop := ⟨0, 0⟩, stRest := [] }

/-- The cannon capture b2xb6 over the screen on b4. -/
def m5 : Move := ⟨46, 90, 5, 13, 1⟩

/-- A red pawn past the river on c5 (80), red to move. -/
def P8 : Position :=
  { board := boardOf [(80, 1)], sideToMove := 0, searchPly := 0, gamePly := 0,
    rule60 := 0, hashKey := 0, kingW := 64, kingB := 64,
    stTop := ⟨0, 0⟩, stRest := [] }

/-- The sideways pawn step c5-b5. -/
def m8 : Move := ⟨80, 79, 1, 0, 0⟩

/-! ## Theorems -/

theorem boardOf_wf (l : List (Int × Nat)) : WFBoard (boardOf l) := by
  intro i h
  simp [boardOf, h]

/-! ### Small facts about pieces and geometry -/

theorem PIECE_TYPE_default {p : Nat} (h : 15 ≤ p) : PIECE_TYPE p = 0 := by
  unfold PIECE_TYPE
  exact List.getD_eq_default _ _ (by simpa using h)

theorem PIECE_COLOR_default {p : Nat} (h : 15 ≤ p) : PIECE_COLOR p = 2 := by
  unfold PIECE_COLOR
  exact List.getD_eq_default _ _ (by simpa using h)

theorem rook_piece_eq {p side : Nat} (ht : PIECE_TYPE p = ROOK)
    (hc : PIECE_COLOR p = side) : p = rookOf side := by
  have h15 : p < 15 := by
    by_contra h
    rw [PIECE_TYPE_default (by omega)] at ht
    simp [ROOK] at ht
  subst hc
  interval_cases p <;> revert ht <;> decide

theorem knight_piece_eq {p side : Nat} (ht : PIECE_TYPE p = KNIGHT)
    (hc : PIECE_COLOR p = side) : p = knightOf side := by
  have h15 : p < 15 := by
    by_contra h
    rw [PIECE_TYPE_default (by omega)] at ht
    simp [KNIGHT] at ht
  subst hc
  interval_cases p <;> revert ht <;> decide

theorem cannon_piece_eq {p side : Nat} (ht : PIECE_TYPE p = CANNON)
    (hc : PIECE_COLOR p = side) : p = cannonOf side := by
  have h15 : p < 15 := by
    by_contra h
    rw [PIECE_TYPE_default (by omega)] at ht
    simp [CANNON] at ht
  subst hc
  interval_cases p <;> revert ht <;> decide

theorem playable_range {s : Int} (h : isPlayable s = true) : 23 ≤ s ∧ s ≤ 130 := by
  simp only [isPlayable, Bool.and_eq_true, decide_eq_true_eq] at h
  omega

theorem playable_of_wf {b : Int → Nat} (hwf : WFBoard b) {s : Int}
    (h : b s ≠ OFFBOARD) : isPlayable s = true := by
  by_contra hc
  exact h (hwf s (by simpa using hc))

/-! ### Membership facts for the generator -/

theorem mem_pushMove {side : Nat} {s t : Int} {sp tp : Nat} {cap : Bool} {m : Move} :
    m ∈ pushMove side s t sp tp cap ↔
      (tp = NO_PIECE ∨ PIECE_COLOR tp = side ^^^ 1) ∧
      ((tp ≠ NO_PIECE ∧ m = ⟨s, t, sp, tp, 1⟩) ∨
       (tp = NO_PIECE ∧ cap = false ∧ m = ⟨s, t, sp, tp, 0⟩)) := by
  unfold pushMove
  split_ifs <;> simp_all

theorem mem_generateMoves {pos : Position} {cap : Bool} {m : Move} :
    m ∈ generateMoves pos cap ↔
      ∃ n : Nat, n < 154 ∧ m ∈ movesFromSquare pos.board pos.sideToMove (Int.ofNat n) cap := by
  simp [generateMoves, List.mem_flatMap, List.mem_range]

theorem fields_of_mem_push {side : Nat} {s t : Int} {sp tp : Nat} {cap : Bool} {m : Move}
    (h : m ∈ pushMove side s t sp tp cap) :
    m.sourceSquare = s ∧ m.targetSquare = t ∧ m.sourcePiece = sp ∧ m.targetPiece = tp := by
  rcases mem_pushMove.mp h with ⟨_, (⟨_, rfl⟩ | ⟨_, _, rfl⟩)⟩ <;> exact ⟨rfl, rfl, rfl, rfl⟩

theorem shape_of_mem_rcRay {b : Int → Nat} {side pt : Nat} {s d : Int} {cap : Bool} :
    ∀ {fuel : Nat} {t : Int} {j : Nat} {m : Move},
      m ∈ rcRay b side pt s d cap fuel t j →
      m.sourceSquare = s ∧ m.sourcePiece = b s := by
  intro fuel
  induction fuel with
  | zero => intro t j m h; simp [rcRay] at h
  | succ n ih =>
    intro t j m h
    rw [rcRay] at h
    by_cases hb : b t = OFFBOARD
    · simp [hb] at h
    · simp only [if_neg hb] at h
      have hpush : ∀ m' : Move,
          m' ∈ (if j = 0 then
            (if pt = ROOK then pushMove side s t (b s) (b t) cap
             else if pt = CANNON ∧ b t = NO_PIECE then pushMove side s t (b s) (b t) cap
             else []) else ([] : List Move)) →
          m'.sourceSquare = s ∧ m'.sourcePiece = b s := by
        intro m' hm
        split at hm
        · split at hm
          · exact ⟨(fields_of_mem_push hm).1, (fields_of_mem_push hm).2.2.1⟩
          · split at hm
            · exact ⟨(fields_of_mem_push hm).1, (fields_of_mem_push hm).2.2.1⟩
            · simp at hm
        · simp at hm
      by_cases ht : b t ≠ NO_PIECE
      · simp only [if_pos ht] at h
        split at h
        · rcases List.mem_append.mp h with h1 | h1
          · exact hpush m h1
          · exact ⟨(fields_of_mem_push h1).1, (fields_of_mem_push h1).2.2.1⟩
        · rcases List.mem_append.mp h with h1 | h1
          · exact hpush m h1
          · exact ih h1
      · simp only [if_neg ht] at h
        have hcond : ¬ (b t ≠ NO_PIECE ∧ pt = CANNON ∧ j = 2) := by
          intro hx
          exact ht hx.1
        rw [if_neg hcond] at h
        rcases List.mem_append.mp h with h1 | h1
        · exact hpush m h1
        · exact ih h1

theorem shape_of_mem_pawnBlock {b : Int → Nat} {side : Nat} {s : Int} {cap : Bool} {m : Move}
    (h : m ∈ pawnBlockMoves b side s cap) : m.sourceSquare = s ∧ m.sourcePiece = b s := by
  simp only [pawnBlockMoves, List.mem_flatMap] at h
  obtain ⟨dir, _, hm⟩ := h
  split at hm
  · exact ⟨(fields_of_mem_push hm).1, (fields_of_mem_push hm).2.2.1⟩
  · simp at hm

theorem shape_of_mem_kingAdvisorBlock {b : Int → Nat} {side : Nat} {s : Int} {pt : Nat}
    {cap : Bool} {m : Move} (h : m ∈ kingAdvisorBlockMoves b side s pt cap) :
    m.sourceSquare = s ∧ m.sourcePiece = b s := by
  simp only [kingAdvisorBlockMoves, List.mem_flatMap] at h
  obtain ⟨i, _, hm⟩ := h
  by_cases hz : BOARD_ZONES side (s + (if pt = KING then ORTHOGONALS i else DIAGONALS i)) = 2
  · rw [if_pos hz] at hm
    exact ⟨(fields_of_mem_push hm).1, (fields_of_mem_push hm).2.2.1⟩
  · rw [if_neg hz] at hm
    simp at hm

theorem shape_of_mem_bishopBlock {b : Int → Nat} {side : Nat} {s : Int} {cap : Bool} {m : Move}
    (h : m ∈ bishopBlockMoves b side s cap) : m.sourceSquare = s ∧ m.sourcePiece = b s := by
  simp only [bishopBlockMoves, List.mem_flatMap] at h
  obtain ⟨i, _, hm⟩ := h
  split at hm
  · exact ⟨(fields_of_mem_push hm).1, (fields_of_mem_push hm).2.2.1⟩
  · simp at hm

theorem shape_of_mem_knightBlock {b : Int → Nat} {side : Nat} {s : Int} {cap : Bool} {m : Move}
    (h : m ∈ knightBlockMoves b side s cap) : m.sourceSquare = s ∧ m.sourcePiece = b s := by
  simp only [knightBlockMoves, List.mem_flatMap] at h
  obtain ⟨i, _, hm⟩ := h
  split at hm
  · simp only [List.mem_flatMap] at hm
    obtain ⟨o, _, hm⟩ := hm
    split at hm
    · exact ⟨(fields_of_mem_push hm).1, (fields_of_mem_push hm).2.2.1⟩
    · simp at hm
  · simp at hm

theorem shape_of_mem_rookCannonBlock {b : Int → Nat} {side : Nat} {s : Int} {pt : Nat}
    {cap : Bool} {m : Move} (h : m ∈ rookCannonBlockMoves b side s pt cap) :
    m.sourceSquare = s ∧ m.sourcePiece = b s := by
  simp only [rookCannonBlockMoves, List.mem_flatMap] at h
  obtain ⟨i, _, hm⟩ := h
  exact shape_of_mem_rcRay hm

theorem rcRay_rook_tail {b : Int → Nat} {side : Nat} {s d : Int} {cap : Bool} :
    ∀ {fuel : Nat} {t : Int} {j : Nat}, 1 ≤ j →
      rcRay b side ROOK s d cap fuel t j = [] := by
  intro fuel
  induction fuel with
  | zero => intro t j _; rfl
  | succ n ih =>
    intro t j hj
    rw [rcRay]
    by_cases hb : b t = OFFBOARD
    · simp [hb]
    · simp only [if_neg hb]
      have hj0 : ¬ j = 0 := by omega
      simp only [if_neg hj0]
      by_cases ht : b t ≠ NO_PIECE
      · simp only [if_pos ht]
        rw [if_neg (by simp [ROOK, CANNON] : ¬(b t ≠ NO_PIECE ∧ ROOK = CANNON ∧ j + 1 = 2))]
        simp [ih (by omega : 1 ≤ j + 1)]
      · simp only [if_neg ht]
        rw [if_neg (fun hx => ht hx.1)]
        simp [ih hj]

theorem rcRay_cannon_tail2 {b : Int → Nat} {side : Nat} {s d : Int} {cap : Bool} :
    ∀ {fuel : Nat} {t : Int} {j : Nat}, 2 ≤ j →
      rcRay b side CANNON s d cap fuel t j = [] := by
  intro fuel
  induction fuel with
  | zero => intro t j _; rfl
  | succ n ih =>
    intro t j hj
    rw [rcRay]
    by_cases hb : b t = OFFBOARD
    · simp [hb]
    · simp only [if_neg hb]
      have hj0 : ¬ j = 0 := by omega
      simp only [if_neg hj0]
      by_cases ht : b t ≠ NO_PIECE
      · simp only [if_pos ht]
        rw [if_neg (fun hx => (by omega : ¬ (j + 1 = 2)) hx.2.2)]
        simp [ih (by omega : 2 ≤ j + 1)]
      · simp only [if_neg ht]
        rw [if_neg (fun hx => ht hx.1)]
        simp [ih hj]

/-- Every move emitted by the rook ray walk targets the `k`-th square
of the ray for some `k` past the walk's current step, with every square
strictly between the source and the target empty. -/
theorem rcRay_rook_emission {b : Int → Nat} {side : Nat} {s d : Int} {cap : Bool} :
    ∀ (fuel n : Nat) (t : Int) (m : Move),
      t = s + ((n : Int) + 1) * d →
      (∀ i : Nat, 1 ≤ i → i ≤ n → b (s + (i : Int) * d) = NO_PIECE) →
      m ∈ rcRay b side ROOK s d cap fuel t 0 →
      ∃ k : Nat, n + 1 ≤ k ∧ getTargetSquare m = s + (k : Int) * d ∧ emptyUpTo b s d k ∧
        m ∈ pushMove side s (s + (k : Int) * d) (b s) (b (s + (k : Int) * d)) cap := by
  intro fuel
  induction fuel with
  | zero => intro n t m _ _ h; simp [rcRay] at h
  | succ f ih =>
    intro n t m hteq hemp h
    rw [rcRay] at h
    by_cases hb : b t = OFFBOARD
    · simp [hb] at h
    · simp only [if_neg hb] at h
      have hkm : m ∈ pushMove side s t (b s) (b t) cap →
          ∃ k : Nat, n + 1 ≤ k ∧ getTargetSquare m = s + (k : Int) * d ∧ emptyUpTo b s d k ∧
            m ∈ pushMove side s (s + (k : Int) * d) (b s) (b (s + (k : Int) * d)) cap := by
        intro h1
        refine ⟨n + 1, le_refl _, ?_, ?_, ?_⟩
        · show m.targetSquare = _
          rw [(fields_of_mem_push h1).2.1, hteq]
          push_cast
          ring
        · intro i hik h1i
          exact hemp i h1i (by omega)
        · have : s + ((n + 1 : Nat) : Int) * d = t := by
            rw [hteq]; push_cast; ring
          rw [this]
          exact h1
      by_cases ht : b t ≠ NO_PIECE
      · simp only [if_pos ht] at h
        rw [if_neg (by simp [ROOK, CANNON] :
          ¬(b t ≠ NO_PIECE ∧ ROOK = CANNON ∧ 0 + 1 = 2))] at h
        rw [rcRay_rook_tail (le_refl 1)] at h
        simp only [if_true, List.append_nil] at h
        exact hkm h
      · simp only [if_neg ht] at h
        rw [if_neg (fun hx => ht hx.1)] at h
        rcases List.mem_append.mp h with h1 | h1
        · simp only [if_true] at h1
          exact hkm h1
        · have hnext : t + d = s + (((n + 1 : Nat) : Int) + 1) * d := by
            rw [hteq]; push_cast; ring
          have hemp2 : ∀ i : Nat, 1 ≤ i → i ≤ n + 1 → b (s + (i : Int) * d) = NO_PIECE := by
            intro i h1i h2i
            rcases Nat.lt_or_ge i (n + 1) with hi | hi
            · exact hemp i h1i (by omega)
            · have : i = n + 1 := by omega
              subst this
              have : s + ((n + 1 : Nat) : Int) * d = t := by
                rw [hteq]; push_cast; ring
              rw [this]
              exact not_not.mp ht
          obtain ⟨k, hk1, hk2, hk3, hk4⟩ := ih (n + 1) (t + d) m hnext hemp2 h1
          exact ⟨k, by omega, hk2, hk3, hk4⟩

/-- After the cannon ray walk has passed its single screen (state
`jumpOver = 1`), the only move it can still emit is the capture of the
next non-empty square. -/
theorem rcRay_cannon_phaseB {b : Int → Nat} {side : Nat} {s d : Int} {cap : Bool} :
    ∀ (fuel n : Nat) (t : Int) (m : Move) (k1 : Nat),
      t = s + ((n : Int) + 1) * d →
      1 ≤ k1 → k1 ≤ n →
      (∀ i : Nat, 1 ≤ i → i ≤ n → i ≠ k1 → b (s + (i : Int) * d) = NO_PIECE) →
      m ∈ rcRay b side CANNON s d cap fuel t 1 →
      ∃ k2 : Nat, n + 1 ≤ k2 ∧ k1 < k2 ∧ getTargetSquare m = s + (k2 : Int) * d ∧
        b (s + (k2 : Int) * d) ≠ NO_PIECE ∧
        (∀ i : Nat, 1 ≤ i → i < k2 → i ≠ k1 → b (s + (i : Int) * d) = NO_PIECE) ∧
        m ∈ pushMove side s (s + (k2 : Int) * d) (b s) (b (s + (k2 : Int) * d)) cap := by
  intro fuel
  induction fuel with
  | zero => intro n t m k1 _ _ _ _ h; simp [rcRay] at h
  | succ f ih =>
    intro n t m k1 hteq hk11 hk1n hemp h
    rw [rcRay] at h
    by_cases hb : b t = OFFBOARD
    · simp [hb] at h
    · simp only [if_neg hb] at h
      rw [if_neg (by omega : ¬(1 : Nat) = 0)] at h
      by_cases ht : b t ≠ NO_PIECE
      · simp only [if_pos ht] at h
        rw [if_pos ⟨ht, trivial, by trivial⟩, List.nil_append] at h
        have hts : s + ((n + 1 : Nat) : Int) * d = t := by
          rw [hteq]; push_cast; ring
        refine ⟨n + 1, le_refl _, by omega, ?_, ?_, ?_, ?_⟩
        · show m.targetSquare = _
          rw [(fields_of_mem_push h).2.1, hts]
        · rw [hts]; exact ht
        · intro i h1i h2i h3i
          exact hemp i h1i (by omega) h3i
        · rw [hts]; exact h
      · simp only [if_neg ht] at h
        rw [if_neg (fun hx => ht hx.1), List.nil_append] at h
        have hnext : t + d = s + (((n + 1 : Nat) : Int) + 1) * d := by
          rw [hteq]; push_cast; ring
        have hemp2 : ∀ i : Nat, 1 ≤ i → i ≤ n + 1 → i ≠ k1 →
            b (s + (i : Int) * d) = NO_PIECE := by
          intro i h1i h2i h3i
          rcases Nat.lt_or_ge i (n + 1) with hi | hi
          · exact hemp i h1i (by omega) h3i
          · have : i = n + 1 := by omega
            subst this
            have hts : s + ((n + 1 : Nat) : Int) * d = t := by
              rw [hteq]; push_cast; ring
            rw [hts]
            exact not_not.mp ht
        obtain ⟨k2, h1, h2, h3, h4, h5, h6⟩ :=
          ih (n + 1) (t + d) m k1 hnext hk11 (by omega) hemp2 h
        exact ⟨k2, by omega, h2, h3, h4, h5, h6⟩

/-- Every move emitted by the cannon ray walk from its initial state is
either a quiet move to an empty square with no screen before it, or the
capture of the second non-empty square on the ray. -/
theorem rcRay_cannon_phaseA {b : Int → Nat} {side : Nat} {s d : Int} {cap : Bool} :
    ∀ (fuel n : Nat) (t : Int) (m : Move),
      t = s + ((n : Int) + 1) * d →
      (∀ i : Nat, 1 ≤ i → i ≤ n → b (s + (i : Int) * d) = NO_PIECE) →
      m ∈ rcRay b side CANNON s d cap fuel t 0 →
      (∃ k : Nat, n + 1 ≤ k ∧ getTargetSquare m = s + (k : Int) * d ∧ emptyUpTo b s d k ∧
        b (s + (k : Int) * d) = NO_PIECE ∧
        m ∈ pushMove side s (s + (k : Int) * d) (b s) (b (s + (k : Int) * d)) cap) ∨
      (∃ k1 k2 : Nat, 1 ≤ k1 ∧ k1 < k2 ∧ emptyUpTo b s d k1 ∧
        b (s + (k1 : Int) * d) ≠ NO_PIECE ∧ b (s + (k1 : Int) * d) ≠ OFFBOARD ∧
        (∀ j : Nat, k1 < j → j < k2 → b (s + (j : Int) * d) = NO_PIECE) ∧
        getTargetSquare m = s + (k2 : Int) * d ∧ b (s + (k2 : Int) * d) ≠ NO_PIECE ∧
        m ∈ pushMove side s (s + (k2 : Int) * d) (b s) (b (s + (k2 : Int) * d)) cap) := by
  intro fuel
  induction fuel with
  | zero => intro n t m _ _ h; simp [rcRay] at h
  | succ f ih =>
    intro n t m hteq hemp h
    rw [rcRay] at h
    by_cases hb : b t = OFFBOARD
    · simp [hb] at h
    · simp only [if_neg hb] at h
      have hts : s + ((n + 1 : Nat) : Int) * d = t := by
        rw [hteq]; push_cast; ring
      by_cases ht : b t ≠ NO_PIECE
      · simp only [if_pos ht] at h
        rw [if_neg (fun hx => (by omega : ¬((0 : Nat) + 1 = 2)) hx.2.2)] at h
        simp only [if_true, true_and] at h
        rw [if_neg (by decide : ¬(CANNON : Nat) = ROOK), if_neg ht, List.nil_append] at h
        have hnext : t + d = s + (((n + 1 : Nat) : Int) + 1) * d := by
          rw [hteq]; push_cast; ring
        have hemp2 : ∀ i : Nat, 1 ≤ i → i ≤ n + 1 → i ≠ n + 1 →
            b (s + (i : Int) * d) = NO_PIECE := by
          intro i h1i h2i h3i
          exact hemp i h1i (by omega)
        obtain ⟨k2, h1, h2, h3, h4, h5, h6⟩ :=
          rcRay_cannon_phaseB f (n + 1) (t + d) m (n + 1) hnext (by omega) (le_refl _) hemp2 h
        refine Or.inr ⟨n + 1, k2, by omega, h2, ?_, ?_, ?_, ?_, h3, h4, h6⟩
        · intro i h1i h2i
          exact hemp i h2i (by omega)
        · rw [hts]; exact ht
        · rw [hts]; exact hb
        · intro j h1j h2j
          exact h5 j (by omega) h2j (by omega)
      · simp only [if_neg ht] at h
        rw [if_neg (fun hx => ht hx.1)] at h
        have hte : b t = NO_PIECE := not_not.mp ht
        rcases List.mem_append.mp h with h1 | h1
        · simp only [if_true, true_and] at h1
          rw [if_neg (by decide : ¬(CANNON : Nat) = ROOK), if_pos hte] at h1
          refine Or.inl ⟨n + 1, le_refl _, ?_, ?_, ?_, ?_⟩
          · show m.targetSquare = _
            rw [(fields_of_mem_push h1).2.1, hts]
          · intro i h1i h2i
            exact hemp i h2i (by omega)
          · rw [hts]; exact hte
          · rw [hts]; exact h1
        · have hnext : t + d = s + (((n + 1 : Nat) : Int) + 1) * d := by
            rw [hteq]; push_cast; ring
          have hemp2 : ∀ i : Nat, 1 ≤ i → i ≤ n + 1 → b (s + (i : Int) * d) = NO_PIECE := by
            intro i h1i h2i
            rcases Nat.lt_or_ge i (n + 1) with hi | hi
            · exact hemp i h1i (by omega)
            · have : i = n + 1 := by omega
              subst this
              rw [hts]; exact hte
          rcases ih (n + 1) (t + d) m hnext hemp2 h1 with hq | hc
          · obtain ⟨k, hk1, hk2, hk3, hk4, hk5⟩ := hq
            exact Or.inl ⟨k, by omega, hk2, hk3, hk4, hk5⟩
          · exact Or.inr hc

theorem shape_of_mem_movesFromSquare {b : Int → Nat} {side : Nat} {s : Int} {cap : Bool}
    {m : Move} (h : m ∈ movesFromSquare b side s cap) :
    m.sourceSquare = s ∧ m.sourcePiece = b s ∧ b s ≠ OFFBOARD ∧ PIECE_COLOR (b s) = side := by
  unfold movesFromSquare at h
  by_cases h0 : b s ≠ OFFBOARD
  · simp only [if_pos h0] at h
    by_cases h1 : PIECE_COLOR (b s) = side
    · simp only [if_pos h1] at h
      have hsrc : m.sourceSquare = s ∧ m.sourcePiece = b s := by
        rcases List.mem_append.mp h with h2 | h2
        · rcases List.mem_append.mp h2 with h2 | h2
          · rcases List.mem_append.mp h2 with h2 | h2
            · rcases List.mem_append.mp h2 with h2 | h2
              · split at h2
                · exact shape_of_mem_pawnBlock h2
                · simp at h2
              · split at h2
                · exact shape_of_mem_kingAdvisorBlock h2
                · simp at h2
            · split at h2
              · exact shape_of_mem_bishopBlock h2
              · simp at h2
          · split at h2
            · exact shape_of_mem_knightBlock h2
            · simp at h2
        · split at h2
          · exact shape_of_mem_rookCannonBlock h2
          · simp at h2
      exact ⟨hsrc.1, hsrc.2, h0, h1⟩
    · simp [h1] at h
  · rw [not_not] at h0
    simp [h0] at h

/-! ### Auxiliary identities used in several proofs -/

theorem mem_blocks_of_mem {b : Int → Nat} {side : Nat} {s : Int} {cap : Bool} {m : Move}
    (h : m ∈ movesFromSquare b side s cap) :
    m ∈ (if PIECE_TYPE (b s) = PAWN then pawnBlockMoves b side s cap else []) ++
        (if PIECE_TYPE (b s) = KING ∨ PIECE_TYPE (b s) = ADVISOR then
          kingAdvisorBlockMoves b side s (PIECE_TYPE (b s)) cap else []) ++
        (if PIECE_TYPE (b s) = BISHOP then bishopBlockMoves b side s cap else []) ++
        (if PIECE_TYPE (b s) = KNIGHT then knightBlockMoves b side s cap else []) ++
        (if PIECE_TYPE (b s) = ROOK ∨ PIECE_TYPE (b s) = CANNON then
          rookCannonBlockMoves b side s (PIECE_TYPE (b s)) cap else []) := by
  have hnb := (shape_of_mem_movesFromSquare h).2.2.1
  have hcol := (shape_of_mem_movesFromSquare h).2.2.2
  unfold movesFromSquare at h
  rw [if_pos hnb, if_pos hcol] at h
  exact h

theorem cannonRay_of_mem {b : Int → Nat} {side : Nat} {s : Int} {cap : Bool} {m : Move}
    (h : m ∈ movesFromSquare b side s cap) (hty : PIECE_TYPE (b s) = CANNON) :
    m ∈ rookCannonBlockMoves b side s CANNON cap := by
  have h2 := mem_blocks_of_mem h
  rw [hty] at h2
  rw [if_neg (by decide : ¬(CANNON : Nat) = PAWN),
    if_neg (by decide : ¬((CANNON : Nat) = KING ∨ (CANNON : Nat) = ADVISOR)),
    if_neg (by decide : ¬(CANNON : Nat) = BISHOP),
    if_neg (by decide : ¬(CANNON : Nat) = KNIGHT),
    if_pos (by decide : (CANNON : Nat) = ROOK ∨ (CANNON : Nat) = CANNON)] at h2
  simpa using h2

theorem rookRay_of_mem {b : Int → Nat} {side : Nat} {s : Int} {cap : Bool} {m : Move}
    (h : m ∈ movesFromSquare b side s cap) (hty : PIECE_TYPE (b s) = ROOK) :
    m ∈ rookCannonBlockMoves b side s ROOK cap := by
  have h2 := mem_blocks_of_mem h
  rw [hty] at h2
  rw [if_neg (by decide : ¬(ROOK : Nat) = PAWN),
    if_neg (by decide : ¬((ROOK : Nat) = KING ∨ (ROOK : Nat) = ADVISOR)),
    if_neg (by decide : ¬(ROOK : Nat) = BISHOP),
    if_neg (by decide : ¬(ROOK : Nat) = KNIGHT),
    if_pos (by decide : (ROOK : Nat) = ROOK ∨ (ROOK : Nat) = CANNON)] at h2
  simpa using h2

theorem knightBlock_of_mem {b : Int → Nat} {side : Nat} {s : Int} {cap : Bool} {m : Move}
    (h : m ∈ movesFromSquare b side s cap) (hty : PIECE_TYPE (b s) = KNIGHT) :
    m ∈ knightBlockMoves b side s cap := by
  have h2 := mem_blocks_of_mem h
  rw [hty] at h2
  rw [if_neg (by decide : ¬(KNIGHT : Nat) = PAWN),
    if_neg (by decide : ¬((KNIGHT : Nat) = KING ∨ (KNIGHT : Nat) = ADVISOR)),
    if_neg (by decide : ¬(KNIGHT : Nat) = BISHOP),
    if_pos (rfl : (KNIGHT : Nat) = KNIGHT),
    if_neg (by decide : ¬((KNIGHT : Nat) = ROOK ∨ (KNIGHT : Nat) = CANNON))] at h2
  simpa using h2

theorem pawnBlock_of_mem {b : Int → Nat} {side : Nat} {s : Int} {cap : Bool} {m : Move}
    (h : m ∈ movesFromSquare b side s cap) (hty : PIECE_TYPE (b s) = PAWN) :
    m ∈ pawnBlockMoves b side s cap := by
  have h2 := mem_blocks_of_mem h
  rw [hty] at h2
  rw [if_pos (rfl : (PAWN : Nat) = PAWN),
    if_neg (by decide : ¬((PAWN : Nat) = KING ∨ (PAWN : Nat) = ADVISOR)),
    if_neg (by decide : ¬(PAWN : Nat) = BISHOP),
    if_neg (by decide : ¬(PAWN : Nat) = KNIGHT),
    if_neg (by decide : ¬((PAWN : Nat) = ROOK ∨ (PAWN : Nat) = CANNON))] at h2
  simpa using h2


/-- C3: refuted at the code level: `do_null_move` leaves the whole
position — in particular the side to move — unchanged (its body is only
the warning-suppression statement), and `undo_null_move` is also the
identity, although the function's own comment and the spec say the side
to move is flipped with no board mutation. -/
theorem C3_null_move_is_identity :
    (∀ pos newSt, do_null_move pos newSt = pos) ∧
    (∀ pos, undo_null_move pos = pos) ∧
    (do_null_move P1 ⟨0, 0⟩).sideToMove = P1.sideToMove :=
  ⟨fun _ _ => rfl, fun _ => rfl, rfl⟩

/-- C1: evaluation at the failing input: the pseudo-legal king step
`m1` from `P1` is generated and applied legally, and the immediate
`undo_move` restores the board, the side to move, both king cache
entries and the ply counters, but sets the reversible-move counter and
the hash key to the caller-supplied record's uninitialized field values
(42 and 7) instead of the pre-apply values (5 and 0). -/
theorem C1_roundtrip_failing_input :
    m1 ∈ generateMoves P1 false ∧
    (make_move P1 m1 ⟨7, 42⟩).1 = true ∧
    ((List.range 154).all fun i =>
      (undo_move (make_move P1 m1 ⟨7, 42⟩).2 m1).board (Int.ofNat i) ==
        P1.board (Int.ofNat i)) = true ∧
    (undo_move (make_move P1 m1 ⟨7, 42⟩).2 m1).sideToMove = P1.sideToMove ∧
    (undo_move (make_move P1 m1 ⟨7, 42⟩).2 m1).kingW = P1.kingW ∧
    (undo_move (make_move P1 m1 ⟨7, 42⟩).2 m1).kingB = P1.kingB ∧
    (undo_move (make_move P1 m1 ⟨7, 42⟩).2 m1).searchPly = P1.searchPly ∧
    (undo_move (make_move P1 m1 ⟨7, 42⟩).2 m1).gamePly = P1.gamePly ∧
    P1.rule60 = 5 ∧ (undo_move (make_move P1 m1 ⟨7, 42⟩).2 m1).rule60 = 42 ∧
    P1.hashKey = 0 ∧ (undo_move (make_move P1 m1 ⟨7, 42⟩).2 m1).hashKey = 7 := by
  decide

/-- C2: evaluation at the failing input: the generated king step `m2`
from `P2` walks into the flying-general line, so `make_move` reports
illegality and takes the move back; the board, side to move, king cache
and ply counters are indeed restored, but the reversible-move counter
and hash key are left at the caller record's uninitialized field values
(99 and 7) instead of the pre-call values (5 and 0), so the position is
not unchanged. -/
theorem C2_illegal_move_not_all_or_nothing :
    m2 ∈ generateMoves P2 false ∧
    (make_move P2 m2 ⟨7, 99⟩).1 = false ∧
    ((List.range 154).all fun i =>
      (make_move P2 m2 ⟨7, 99⟩).2.board (Int.ofNat i) == P2.board (Int.ofNat i)) = true ∧
    (make_move P2 m2 ⟨7, 99⟩).2.sideToMove = P2.sideToMove ∧
    (make_move P2 m2 ⟨7, 99⟩).2.kingW = P2.kingW ∧
    (make_move P2 m2 ⟨7, 99⟩).2.kingB = P2.kingB ∧
    (make_move P2 m2 ⟨7, 99⟩).2.searchPly = P2.searchPly ∧
    (make_move P2 m2 ⟨7, 99⟩).2.gamePly = P2.gamePly ∧
    (make_move P2 m2 ⟨7, 99⟩).2.stRest.length = P2.stRest.length ∧
    P2.rule60 = 5 ∧ (make_move P2 m2 ⟨7, 99⟩).2.rule60 = 99 ∧
    P2.hashKey = 0 ∧ (make_move P2 m2 ⟨7, 99⟩).2.hashKey = 7 := by
  decide

/-- C4: counterexample: in `P4` (red to move) the generator emits
exactly the advisor move d0-e1, so square 38 is the target of a
generated move, yet `isSquareAttacked` reports square 38 as not
attacked by red — the claimed equivalence fails. -/
theorem C4_counterexample :
    ((generateMoves P4 false).map getTargetSquare) = [38] ∧
    isSquareAttacked P4.board 38 P4.sideToMove = false := by
  decide

/-- C6: counterexample: on board `bC6` the detector reports a knight
attack on square 60 (the diagonal leg 72 is empty and a red knight
stands on 83) although the orthogonal-leg reading of the claim reports
none (the orthogonal neighbour 71 is occupied), so the detector does
not examine orthogonal leg squares. -/
theorem C6_counterexample :
    knightAttacked bC6 60 WHITE = true ∧
    knightAttackedOrthoLegs bC6 60 WHITE = false ∧
    isSquareAttacked bC6 60 WHITE = true := by
  decide

theorem enemy_or_empty {tp side : Nat} (hlt : tp < 16) (h15 : tp ≠ OFFBOARD)
    (hside : side = WHITE ∨ side = BLACK) (hne : PIECE_COLOR tp ≠ side) :
    tp = NO_PIECE ∨ PIECE_COLOR tp = side ^^^ 1 := by
  rcases hside with rfl | rfl <;> interval_cases tp <;> revert hne h15 <;> decide

theorem not_friendly {tp side : Nat} (hside : side = WHITE ∨ side = BLACK)
    (hg : tp = NO_PIECE ∨ PIECE_COLOR tp = side ^^^ 1) : PIECE_COLOR tp ≠ side := by
  rcases hside with rfl | rfl <;> rcases hg with rfl | hg
  · decide
  · rw [hg]; decide
  · decide
  · rw [hg]; decide

theorem lookup_getD_lt {l : List (Int × Nat)} (h : ∀ p ∈ l, p.2 < 16) (i : Int) :
    ((l.lookup i).getD 0) < 16 := by
  induction l with
  | nil => simp [List.lookup]
  | cons hd tl ih =>
    obtain ⟨k, v⟩ := hd
    simp only [List.lookup]
    split
    · simpa using h (k, v) (by simp)
    · exact ih fun p hp => h p (by simp [hp])

theorem boardOf_valid {l : List (Int × Nat)} (h : ∀ p ∈ l, p.2 < 16) :
    ∀ i, boardOf l i < 16 := by
  intro i
  unfold boardOf
  split
  · exact lookup_getD_lt h i
  · decide

/-- C8: characterization of the pawn moves of `generateMoves` (full
move mode): a move whose moving piece is a pawn is generated exactly
when some pawn of the side to move steps forward, or sideways from past
the river, onto an on-board square that is not friendly-occupied, with
the capture flag recording enemy occupancy (`pawnMoveSpec`). -/
theorem C8_pawn_generation (pos : Position) (m : Move)
    (hside : pos.sideToMove = WHITE ∨ pos.sideToMove = BLACK)
    (hvp : ∀ i : Int, pos.board i < 16) :
    (m ∈ generateMoves pos false ∧ PIECE_TYPE (getSourcePiece m) = PAWN) ↔
      pawnMoveSpec pos m := by
  constructor
  · rintro ⟨hm, hty⟩
    obtain ⟨n, hn, hmem⟩ := mem_generateMoves.mp hm
    obtain ⟨hsrc, hsp, hnb, hcol⟩ := shape_of_mem_movesFromSquare hmem
    have hty2 : PIECE_TYPE (pos.board (Int.ofNat n)) = PAWN := by rw [← hsp]; exact hty
    have hp := pawnBlock_of_mem hmem hty2
    simp only [pawnBlockMoves, List.mem_flatMap] at hp
    obtain ⟨dir, hdir, hpm⟩ := hp
    by_cases hOB : pos.board ((Int.ofNat n) + PAWN_MOVE_OFFSETS pos.sideToMove dir) ≠ OFFBOARD
    · rw [if_pos hOB] at hpm
      have hdir3 : dir < 3 ∧ (1 ≤ dir → BOARD_ZONES pos.sideToMove (Int.ofNat n) = 0) := by
        by_cases hz : BOARD_ZONES pos.sideToMove (Int.ofNat n) ≠ 0
        · rw [if_pos hz] at hdir
          simp at hdir
          subst hdir
          exact ⟨by omega, by omega⟩
        · rw [if_neg hz] at hdir
          rw [not_not] at hz
          simp at hdir
          refine ⟨by omega, fun _ => hz⟩
      obtain ⟨hg, hc2⟩ := mem_pushMove.mp hpm
      have hcne : PIECE_COLOR (pos.board ((Int.ofNat n) +
          PAWN_MOVE_OFFSETS pos.sideToMove dir)) ≠ pos.sideToMove := not_friendly hside hg
      refine ⟨Int.ofNat n, dir, Int.ofNat_nonneg n,
        by rw [Int.ofNat_eq_natCast]; exact_mod_cast hn, hty2, hcol,
        hdir3.1, hdir3.2, hOB, hcne, ?_⟩
      rcases hc2 with ⟨hne, heq⟩ | ⟨he, _, heq⟩
      · rw [heq, if_pos hne]
      · rw [heq, if_neg (not_not.mpr he)]
    · rw [if_neg hOB] at hpm
      simp at hpm
  · rintro ⟨s, dir, h0s, h154, hty, hcol, hdir, hzdir, hOB, hcne, heq⟩
    have hbs16 := hvp s
    have hbsne : pos.board s ≠ OFFBOARD := by
      intro hx
      rw [hx] at hcol
      rcases hside with h | h <;> rw [h] at hcol <;> revert hcol <;> decide
    have htp16 := hvp (s + PAWN_MOVE_OFFSETS pos.sideToMove dir)
    have hg := enemy_or_empty htp16 hOB hside hcne
    have hblk : m ∈ pawnBlockMoves pos.board pos.sideToMove s false := by
      simp only [pawnBlockMoves, List.mem_flatMap]
      refine ⟨dir, ?_, ?_⟩
      · by_cases hz : BOARD_ZONES pos.sideToMove s ≠ 0
        · rw [if_pos hz]
          have : dir = 0 := by
            by_contra hd
            exact hz (hzdir (by omega))
          simp [this]
        · rw [if_neg hz]
          interval_cases dir <;> decide
      · rw [if_pos hOB]
        rw [mem_pushMove]
        refine ⟨hg, ?_⟩
        by_cases hne : pos.board (s + PAWN_MOVE_OFFSETS pos.sideToMove dir) = NO_PIECE
        · right
          refine ⟨hne, rfl, ?_⟩
          rw [heq, if_neg (by simp [hne]), hne]
        · left
          refine ⟨hne, ?_⟩
          rw [heq, if_pos hne]
    have hmm : m ∈ movesFromSquare pos.board pos.sideToMove s false := by
      unfold movesFromSquare
      rw [if_pos hbsne, if_pos hcol]
      refine List.mem_append.mpr (Or.inl (List.mem_append.mpr (Or.inl
        (List.mem_append.mpr (Or.inl (List.mem_append.mpr (Or.inl ?_)))))))
      rw [if_pos hty]
      exact hblk
    constructor
    · rw [mem_generateMoves]
      refine ⟨s.toNat, by omega, ?_⟩
      have hofn : Int.ofNat s.toNat = s := by
        rw [Int.ofNat_eq_natCast, Int.toNat_of_nonneg h0s]
      rw [hofn]
      exact hmm
    · have hgp : getSourcePiece m = pos.board s := by
        rw [heq]
        rfl
      rw [hgp]
      exact hty

/-- C8 witness: the river-crossed pawn in `P8` generates the sideways
step c5-b5, and that step satisfies `pawnMoveSpec`. -/
theorem C8_witness :
    (P8.sideToMove = WHITE ∨ P8.sideToMove = BLACK) ∧
    (m8 ∈ generateMoves P8 false ∧ PIECE_TYPE (getSourcePiece m8) = PAWN) ∧
    pawnMoveSpec P8 m8 :=
  ⟨Or.inl (by decide), ⟨by decide, by decide⟩,
    (C8_pawn_generation P8 m8 (Or.inl (by decide))
      (boardOf_valid (by decide))).mp ⟨by decide, by decide⟩⟩

/-- C5: every cannon move the generator emits lies on one of the four
orthogonal rays from its source; a quiet cannon move has zero non-empty
squares strictly between source and target, and a cannon capture has
exactly one non-empty square (the screen) strictly between, with an
enemy piece on the target. -/
theorem C5_cannon_screen_discipline (pos : Position) (cap : Bool) (m : Move)
    (hm : m ∈ generateMoves pos cap)
    (hty : PIECE_TYPE (getSourcePiece m) = CANNON) :
    ∃ i : Nat, i < 4 ∧ ∃ k : Nat, 1 ≤ k ∧
      getTargetSquare m = getSourceSquare m + (k : Int) * ORTHOGONALS i ∧
      ((getCaptureFlag m = 0 ∧ pos.board (getTargetSquare m) = NO_PIECE ∧
        emptyUpTo pos.board (getSourceSquare m) (ORTHOGONALS i) k) ∨
       (getCaptureFlag m = 1 ∧ pos.board (getTargetSquare m) ≠ NO_PIECE ∧
        PIECE_COLOR (pos.board (getTargetSquare m)) = pos.sideToMove ^^^ 1 ∧
        ∃ k1 : Nat, 1 ≤ k1 ∧ k1 < k ∧
          pos.board (getSourceSquare m + (k1 : Int) * ORTHOGONALS i) ≠ NO_PIECE ∧
          ∀ j : Nat, 1 ≤ j → j < k → j ≠ k1 →
            pos.board (getSourceSquare m + (j : Int) * ORTHOGONALS i) = NO_PIECE)) := by
  obtain ⟨n, hn, hmem⟩ := mem_generateMoves.mp hm
  obtain ⟨hsrc, hsp, hnb, hcol⟩ := shape_of_mem_movesFromSquare hmem
  have hty2 : PIECE_TYPE (pos.board (Int.ofNat n)) = CANNON := by rw [← hsp]; exact hty
  have hray := cannonRay_of_mem hmem hty2
  simp only [rookCannonBlockMoves, List.mem_flatMap, List.mem_range] at hray
  obtain ⟨i, hi, hr⟩ := hray
  have h0 : (Int.ofNat n) + ORTHOGONALS i =
      (Int.ofNat n) + (((0 : Nat) : Int) + 1) * ORTHOGONALS i := by
    push_cast; ring
  have hvac : ∀ j : Nat, 1 ≤ j → j ≤ 0 →
      pos.board ((Int.ofNat n) + (j : Int) * ORTHOGONALS i) = NO_PIECE := by
    intro j h1 h2
    omega
  rcases rcRay_cannon_phaseA 154 0 _ m h0 hvac hr with hq | hc
  · obtain ⟨k, hk1, hk2, hk3, hk4, hk5⟩ := hq
    refine ⟨i, hi, k, by omega, ?_, Or.inl ⟨?_, ?_, ?_⟩⟩
    · simp only [getSourceSquare, hsrc]
      exact hk2
    · rcases (mem_pushMove.mp hk5).2 with ⟨hne, _⟩ | ⟨_, _, heq⟩
      · exact absurd hk4 hne
      · rw [heq]; rfl
    · rw [hk2]
      exact hk4
    · simp only [getSourceSquare, hsrc]
      exact hk3
  · obtain ⟨k1, k2, h1, h2, h3, h4, h5, h6, h7, h8, h9⟩ := hc
    have htgt : pos.board (getTargetSquare m) ≠ NO_PIECE := by
      rw [h7]; exact h8
    refine ⟨i, hi, k2, by omega, ?_, Or.inr ⟨?_, htgt, ?_, k1, h1, h2, ?_, ?_⟩⟩
    · simp only [getSourceSquare, hsrc]
      exact h7
    · rcases (mem_pushMove.mp h9).2 with ⟨_, heq⟩ | ⟨htp0, _, _⟩
      · rw [heq]; rfl
      · exact absurd htp0 h8
    · rcases (mem_pushMove.mp h9).1 with htp0 | hcolr
      · exact absurd htp0 h8
      · rw [h7]; exact hcolr
    · simp only [getSourceSquare, hsrc]
      exact h4
    · intro j hj1 hj2 hj3
      simp only [getSourceSquare, hsrc]
      rcases Nat.lt_or_ge j k1 with hj | hj
      · exact h3 j hj hj1
      · exact h6 j (by omega) hj2

/-- C5 witness: the generated cannon capture b2xb6 in `P5` satisfies
the screen discipline. -/
theorem C5_witness :
    m5 ∈ generateMoves P5 false ∧ PIECE_TYPE (getSourcePiece m5) = CANNON ∧
    (∃ i : Nat, i < 4 ∧ ∃ k : Nat, 1 ≤ k ∧
      getTargetSquare m5 = getSourceSquare m5 + (k : Int) * ORTHOGONALS i ∧
      ((getCaptureFlag m5 = 0 ∧ P5.board (getTargetSquare m5) = NO_PIECE ∧
        emptyUpTo P5.board (getSourceSquare m5) (ORTHOGONALS i) k) ∨
       (getCaptureFlag m5 = 1 ∧ P5.board (getTargetSquare m5) ≠ NO_PIECE ∧
        PIECE_COLOR (P5.board (getTargetSquare m5)) = P5.sideToMove ^^^ 1 ∧
        ∃ k1 : Nat, 1 ≤ k1 ∧ k1 < k ∧
          P5.board (getSourceSquare m5 + (k1 : Int) * ORTHOGONALS i) ≠ NO_PIECE ∧
          ∀ j : Nat, 1 ≤ j → j < k → j ≠ k1 →
            P5.board (getSourceSquare m5 + (j : Int) * ORTHOGONALS i) = NO_PIECE))) :=
  ⟨by decide, by decide, C5_cannon_screen_discipline P5 false m5 (by decide) (by decide)⟩

theorem rookOf_ne_empty (c : Nat) : rookOf c ≠ NO_PIECE := by
  unfold rookOf; split <;> decide

theorem kingOf_ne_empty (c : Nat) : kingOf c ≠ NO_PIECE := by
  unfold kingOf; split <;> decide

theorem cannonOf_ne_empty (c : Nat) : cannonOf c ≠ NO_PIECE := by
  unfold cannonOf; split <;> decide

theorem rookOf_ne_off (c : Nat) : rookOf c ≠ OFFBOARD := by
  unfold rookOf; split <;> decide

theorem kingOf_ne_off (c : Nat) : kingOf c ≠ OFFBOARD := by
  unfold kingOf; split <;> decide

theorem cannonOf_ne_off (c : Nat) : cannonOf c ≠ OFFBOARD := by
  unfold cannonOf; split <;> decide

/-- With two or more screens counted, the detector's ray walk can never
report an attack. -/
theorem rayAtt_ge2 {b : Int → Nat} {c : Nat} {d : Int} :
    ∀ {fuel : Nat} {t : Int} {j : Nat}, 2 ≤ j → rayAtt b c d fuel t j = false := by
  intro fuel
  induction fuel with
  | zero => intro t j _; rfl
  | succ n ih =>
    intro t j hj
    rw [rayAtt]
    by_cases hb : b t = OFFBOARD
    · simp [hb]
    · simp only [if_neg hb]
      rw [if_neg (fun hx => (by omega : ¬ j = 0) hx.1)]
      by_cases ht : b t ≠ NO_PIECE
      · simp only [if_pos ht]
        rw [if_neg (fun hx => (by omega : ¬ (j + 1 = 2)) hx.1)]
        exact ih (by omega)
      · simp only [if_neg ht]
        have hcn : ¬(j = 2 ∧ b t = cannonOf c) := by
          rintro ⟨-, hcn⟩
          rw [not_not.mp ht] at hcn
          exact cannonOf_ne_empty c hcn.symm
        rw [if_neg hcn]
        exact ih hj

/-- Stepping the walk over an empty square changes nothing but the
position. -/
theorem rayAtt_step_empty {b : Int → Nat} {c : Nat} {d : Int} {n : Nat} {t : Int} {j : Nat}
    (h : b t = NO_PIECE) :
    rayAtt b c d (n + 1) t j = rayAtt b c d n (t + d) j := by
  rw [rayAtt]
  rw [if_neg (by rw [h]; decide)]
  rw [if_neg (fun hx => by
    rcases hx.2 with hr | hr
    · exact rookOf_ne_empty c (h ▸ hr ▸ rfl)
    · exact kingOf_ne_empty c (h ▸ hr ▸ rfl))]
  simp only [if_neg (not_not.mpr h)]
  have hcn : ¬(j = 2 ∧ b t = cannonOf c) := by
    rintro ⟨-, hcn⟩
    rw [h] at hcn
    exact cannonOf_ne_empty c hcn.symm
  rw [if_neg hcn]

/-- Reaching the first non-empty square that is not the attacker's rook
or king turns the walk into the one-screen state. -/
theorem rayAtt_step_screen {b : Int → Nat} {c : Nat} {d : Int} {n : Nat} {t : Int}
    (ht : b t ≠ NO_PIECE) (h15 : b t ≠ OFFBOARD)
    (hnrk : ¬(b t = rookOf c ∨ b t = kingOf c)) :
    rayAtt b c d (n + 1) t 0 = rayAtt b c d n (t + d) 1 := by
  rw [rayAtt]
  rw [if_neg h15]
  rw [if_neg (fun hx => hnrk hx.2)]
  simp only [if_pos ht]
  rw [if_neg (fun hx => (by omega : ¬ ((0 : Nat) + 1 = 2)) hx.1)]

/-- In the one-screen state, a non-empty square either is the
attacker's cannon (attack found) or pushes the count to two, after
which the walk is dead. -/
theorem rayAtt_screen1 {b : Int → Nat} {c : Nat} {d : Int} {n : Nat} {t : Int}
    (ht : b t ≠ NO_PIECE) (h15 : b t ≠ OFFBOARD) :
    rayAtt b c d (n + 1) t 1 = (if b t = cannonOf c then true else false) := by
  rw [rayAtt]
  rw [if_neg h15]
  rw [if_neg (fun hx => (by omega : ¬ ((1 : Nat) = 0)) hx.1)]
  simp only [if_pos ht]
  by_cases hcn : b t = cannonOf c
  · rw [if_pos ⟨by trivial, hcn⟩, if_pos hcn]
  · rw [if_neg (fun hx => hcn hx.2), if_neg hcn]
    exact rayAtt_ge2 (by omega)

/-- Finding the attacker's rook or king with no screens reports the
attack. -/
theorem rayAtt_hit {b : Int → Nat} {c : Nat} {d : Int} {n : Nat} {t : Int}
    (hrk : b t = rookOf c ∨ b t = kingOf c) :
    rayAtt b c d (n + 1) t 0 = true := by
  rw [rayAtt]
  rw [if_neg (by
    rcases hrk with hr | hr
    · rw [hr]; exact rookOf_ne_off c
    · rw [hr]; exact kingOf_ne_off c)]
  rw [if_pos ⟨rfl, hrk⟩]

theorem orth_mem {i : Nat} (h : i < 4) :
    ORTHOGONALS i = -11 ∨ ORTHOGONALS i = -1 ∨ ORTHOGONALS i = 1 ∨ ORTHOGONALS i = 11 := by
  interval_cases i <;> decide

/-- Two playable squares on a common orthogonal ray are at most 107
steps apart. -/
theorem ray_k_bound {s s' d : Int} {k : Nat}
    (hs : isPlayable s = true) (hs' : isPlayable s' = true)
    (hd : d = -11 ∨ d = -1 ∨ d = 1 ∨ d = 11)
    (he : s' = s + (k : Int) * d) : k ≤ 107 := by
  have h1 := playable_range hs
  have h2 := playable_range hs'
  rcases hd with h | h | h | h <;> subst h <;> omega

/-- Soundness of the one-screen walk state: reporting an attack means a
cannon of the attacker stands at the first non-empty square ahead. -/
theorem rayAtt1_sound {b : Int → Nat} {c : Nat} {d : Int} :
    ∀ {n : Nat} {t : Int}, rayAtt b c d n t 1 = true →
    ∃ k : Nat, k < n ∧ (∀ j : Nat, j < k → b (t + (j : Int) * d) = NO_PIECE) ∧
      b (t + (k : Int) * d) = cannonOf c := by
  intro n
  induction n with
  | zero => intro t h; exact absurd h (by rw [rayAtt]; decide)
  | succ m ih =>
    intro t h
    have hidx : ∀ j : Nat, t + ((j + 1 : Nat) : Int) * d = t + d + (j : Int) * d :=
      fun j => by push_cast; ring
    by_cases h15 : b t = OFFBOARD
    · rw [rayAtt, if_pos h15] at h; exact absurd h (by decide)
    by_cases ht : b t = NO_PIECE
    · rw [rayAtt_step_empty ht] at h
      obtain ⟨k, hk, hemp, hcn⟩ := ih h
      refine ⟨k + 1, by omega, fun j hj => ?_, ?_⟩
      · cases j with
        | zero => simpa using ht
        | succ j => rw [hidx j]; exact hemp j (by omega)
      · rw [hidx k]; exact hcn
    · rw [rayAtt_screen1 ht h15] at h
      have hcn : b t = cannonOf c := by
        by_cases hx : b t = cannonOf c
        · exact hx
        · rw [if_neg hx] at h; exact absurd h (by decide)
      exact ⟨0, by omega, fun j hj => absurd hj (by omega), by simpa using hcn⟩

/-- Completeness of the one-screen walk state: a cannon of the attacker
at the first non-empty square ahead is reported. -/
theorem rayAtt1_complete {b : Int → Nat} {c : Nat} {d : Int} :
    ∀ {k n : Nat} {t : Int}, k < n →
    (∀ j : Nat, j < k → b (t + (j : Int) * d) = NO_PIECE) →
    b (t + (k : Int) * d) = cannonOf c →
    rayAtt b c d n t 1 = true := by
  intro k
  induction k with
  | zero =>
    intro n t hn hemp hcn
    obtain ⟨m, rfl⟩ := Nat.exists_eq_succ_of_ne_zero (by omega : n ≠ 0)
    simp only [Nat.cast_zero, zero_mul, add_zero] at hcn
    rw [rayAtt_screen1 (by rw [hcn]; exact cannonOf_ne_empty c)
      (by rw [hcn]; exact cannonOf_ne_off c), if_pos hcn]
  | succ k ih =>
    intro n t hn hemp hcn
    obtain ⟨m, rfl⟩ := Nat.exists_eq_succ_of_ne_zero (by omega : n ≠ 0)
    have hidx : ∀ j : Nat, t + ((j + 1 : Nat) : Int) * d = t + d + (j : Int) * d :=
      fun j => by push_cast; ring
    have ht : b t = NO_PIECE := by simpa using hemp 0 (by omega)
    rw [rayAtt_step_empty ht]
    refine ih (by omega) (fun j hj => ?_) ?_
    · rw [← hidx j]; exact hemp (j + 1) (by omega)
    · rw [← hidx k]; exact hcn

/-- Soundness of the walk from the zero-screen state: an attack report
means the attacker's rook or king stands at the first non-empty square
ahead, or the attacker's cannon at the first non-empty square behind
exactly one screen. -/
theorem rayAtt0_sound {b : Int → Nat} {c : Nat} {d : Int} :
    ∀ {n : Nat} {t : Int}, rayAtt b c d n t 0 = true →
    (∃ k : Nat, (∀ j : Nat, j < k → b (t + (j : Int) * d) = NO_PIECE) ∧
      (b (t + (k : Int) * d) = rookOf c ∨ b (t + (k : Int) * d) = kingOf c)) ∨
    (∃ k1 k2 : Nat, k1 < k2 ∧
      (∀ j : Nat, j < k1 → b (t + (j : Int) * d) = NO_PIECE) ∧
      b (t + (k1 : Int) * d) ≠ NO_PIECE ∧ b (t + (k1 : Int) * d) ≠ OFFBOARD ∧
      (∀ j : Nat, k1 < j → j < k2 → b (t + (j : Int) * d) = NO_PIECE) ∧
      b (t + (k2 : Int) * d) = cannonOf c) := by
  intro n
  induction n with
  | zero => intro t h; exact absurd h (by rw [rayAtt]; decide)
  | succ m ih =>
    intro t h
    have hidx : ∀ j : Nat, t + ((j + 1 : Nat) : Int) * d = t + d + (j : Int) * d :=
      fun j => by push_cast; ring
    by_cases h15 : b t = OFFBOARD
    · rw [rayAtt, if_pos h15] at h; exact absurd h (by decide)
    by_cases ht : b t = NO_PIECE
    · rw [rayAtt_step_empty ht] at h
      rcases ih h with ⟨k, hemp, hrk⟩ | ⟨k1, k2, hlt, hemp, hs1, hs2, hmid, hcn⟩
      · left
        refine ⟨k + 1, fun j hj => ?_, ?_⟩
        · cases j with
          | zero => simpa using ht
          | succ j => rw [hidx j]; exact hemp j (by omega)
        · rw [hidx k]; exact hrk
      · right
        refine ⟨k1 + 1, k2 + 1, by omega, fun j hj => ?_, ?_, ?_, fun j hj1 hj2 => ?_, ?_⟩
        · cases j with
          | zero => simpa using ht
          | succ j => rw [hidx j]; exact hemp j (by omega)
        · rw [hidx k1]; exact hs1
        · rw [hidx k1]; exact hs2
        · obtain ⟨j', rfl⟩ : ∃ j', j = j' + 1 := ⟨j - 1, by omega⟩
          rw [hidx j']; exact hmid j' (by omega) (by omega)
        · rw [hidx k2]; exact hcn
    · by_cases hrk : b t = rookOf c ∨ b t = kingOf c
      · left
        exact ⟨0, fun j hj => absurd hj (by omega), by simpa using hrk⟩
      · rw [rayAtt_step_screen ht h15 hrk] at h
        obtain ⟨k, _, hemp, hcn⟩ := rayAtt1_sound h
        right
        refine ⟨0, k + 1, by omega, fun j hj => absurd hj (by omega),
          by simpa using ht, by simpa using h15, fun j hj1 hj2 => ?_, ?_⟩
        · obtain ⟨j', rfl⟩ : ∃ j', j = j' + 1 := ⟨j - 1, by omega⟩
          rw [hidx j']; exact hemp j' (by omega)
        · rw [hidx k]; exact hcn

/-- Completeness, rook/king part: the walk reports an attack when the
attacker's rook or king stands at the first non-empty square ahead. -/
theorem rayAtt0_complete_rk {b : Int → Nat} {c : Nat} {d : Int} :
    ∀ {k n : Nat} {t : Int}, k < n →
    (∀ j : Nat, j < k → b (t + (j : Int) * d) = NO_PIECE) →
    (b (t + (k : Int) * d) = rookOf c ∨ b (t + (k : Int) * d) = kingOf c) →
    rayAtt b c d n t 0 = true := by
  intro k
  induction k with
  | zero =>
    intro n t hn hemp hrk
    obtain ⟨m, rfl⟩ := Nat.exists_eq_succ_of_ne_zero (by omega : n ≠ 0)
    simp only [Nat.cast_zero, zero_mul, add_zero] at hrk
    exact rayAtt_hit hrk
  | succ k ih =>
    intro n t hn hemp hrk
    obtain ⟨m, rfl⟩ := Nat.exists_eq_succ_of_ne_zero (by omega : n ≠ 0)
    have hidx : ∀ j : Nat, t + ((j + 1 : Nat) : Int) * d = t + d + (j : Int) * d :=
      fun j => by push_cast; ring
    have ht : b t = NO_PIECE := by simpa using hemp 0 (by omega)
    rw [rayAtt_step_empty ht]
    refine ih (by omega) (fun j hj => ?_) ?_
    · rw [← hidx j]; exact hemp (j + 1) (by omega)
    · rw [← hidx k]; exact hrk

/-- Completeness, cannon part: the walk reports an attack when the
attacker's cannon stands at the first non-empty square behind exactly
one screen. -/
theorem rayAtt0_complete_cannon {b : Int → Nat} {c : Nat} {d : Int} :
    ∀ {k1 k2 n : Nat} {t : Int}, k1 < k2 → k2 < n →
    (∀ j : Nat, j < k1 → b (t + (j : Int) * d) = NO_PIECE) →
    b (t + (k1 : Int) * d) ≠ NO_PIECE → b (t + (k1 : Int) * d) ≠ OFFBOARD →
    (∀ j : Nat, k1 < j → j < k2 → b (t + (j : Int) * d) = NO_PIECE) →
    b (t + (k2 : Int) * d) = cannonOf c →
    rayAtt b c d n t 0 = true := by
  intro k1
  induction k1 with
  | zero =>
    intro k2 n t hlt hn hemp hs1 hs2 hmid hcn
    obtain ⟨m, rfl⟩ := Nat.exists_eq_succ_of_ne_zero (by omega : n ≠ 0)
    have hidx : ∀ j : Nat, t + ((j + 1 : Nat) : Int) * d = t + d + (j : Int) * d :=
      fun j => by push_cast; ring
    simp only [Nat.cast_zero, zero_mul, add_zero] at hs1 hs2
    by_cases hrk : b t = rookOf c ∨ b t = kingOf c
    · exact rayAtt_hit hrk
    · rw [rayAtt_step_screen hs1 hs2 hrk]
      obtain ⟨k2', rfl⟩ : ∃ k2', k2 = k2' + 1 := ⟨k2 - 1, by omega⟩
      refine @rayAtt1_complete b c d k2' m (t + d) (by omega) (fun j hj => ?_) ?_
      · rw [← hidx j]; exact hmid (j + 1) (by omega) (by omega)
      · rw [← hidx k2']; exact hcn
  | succ k1 ih =>
    intro k2 n t hlt hn hemp hs1 hs2 hmid hcn
    obtain ⟨m, rfl⟩ := Nat.exists_eq_succ_of_ne_zero (by omega : n ≠ 0)
    obtain ⟨k2', rfl⟩ : ∃ k2', k2 = k2' + 1 := ⟨k2 - 1, by omega⟩
    have hidx : ∀ j : Nat, t + ((j + 1 : Nat) : Int) * d = t + d + (j : Int) * d :=
      fun j => by push_cast; ring
    have ht : b t = NO_PIECE := by simpa using hemp 0 (by omega)
    rw [rayAtt_step_empty ht]
    refine @ih k2' m (t + d) (by omega) (by omega) (fun j hj => ?_) ?_ ?_ (fun j hj1 hj2 => ?_) ?_
    · rw [← hidx j]; exact hemp (j + 1) (by omega)
    · rw [← hidx k1]; exact hs1
    · rw [← hidx k1]; exact hs2
    · rw [← hidx j]; exact hmid (j + 1) (by omega) (by omega)
    · rw [← hidx k2']; exact hcn

/-- C7: along each of the four orthogonal rays from the tested square,
the rook/cannon/king loop of `isSquareAttacked` reports an attack
exactly when the first non-empty square of some ray (zero prior
screens) holds the attacker's rook OR king — the king tested exactly
as a rook, which is the flying-general rule — or when, behind exactly
one screen, the next non-empty square holds the attacker's cannon. -/
theorem C7_first_nonempty_rook_or_king {b : Int → Nat} {s : Int} {c : Nat}
    (hwf : WFBoard b) (hs : isPlayable s = true) :
    lineAttacked b s c = true ↔
      ∃ i : Nat, i < 4 ∧
        (specRayRookKing b s (ORTHOGONALS i) c ∨ specRayCannon b s (ORTHOGONALS i) c) := by
  constructor
  · intro h
    rw [lineAttacked, List.any_eq_true] at h
    obtain ⟨i, hi, hray⟩ := h
    rw [List.mem_range] at hi
    refine ⟨i, hi, ?_⟩
    set d := ORTHOGONALS i with hd
    have hidx : ∀ j : Nat, s + ((j + 1 : Nat) : Int) * d = s + d + (j : Int) * d :=
      fun j => by push_cast; ring
    rcases rayAtt0_sound hray with
      ⟨k, hemp, hrk⟩ | ⟨k1, k2, hlt, hemp, hs1, hs2, hmid, hcn⟩
    · left
      refine ⟨k + 1, by omega, fun j hj h1j => ?_, ?_⟩
      · obtain ⟨j', rfl⟩ : ∃ j', j = j' + 1 := ⟨j - 1, by omega⟩
        rw [hidx j']; exact hemp j' (by omega)
      · rw [hidx k]; exact hrk
    · right
      refine ⟨k1 + 1, k2 + 1, by omega, by omega, fun j hj h1j => ?_, ?_, ?_,
        fun j hj1 hj2 => ?_, ?_⟩
      · obtain ⟨j', rfl⟩ : ∃ j', j = j' + 1 := ⟨j - 1, by omega⟩
        rw [hidx j']; exact hemp j' (by omega)
      · rw [hidx k1]; exact hs1
      · rw [hidx k1]; exact hs2
      · obtain ⟨j', rfl⟩ : ∃ j', j = j' + 1 := ⟨j - 1, by omega⟩
        rw [hidx j']; exact hmid j' (by omega) (by omega)
      · rw [hidx k2]; exact hcn
  · intro h
    obtain ⟨i, hi, hspec⟩ := h
    rw [lineAttacked, List.any_eq_true]
    refine ⟨i, List.mem_range.mpr hi, ?_⟩
    set d := ORTHOGONALS i with hd
    have hidx : ∀ j : Nat, s + ((j + 1 : Nat) : Int) * d = s + d + (j : Int) * d :=
      fun j => by push_cast; ring
    rcases hspec with ⟨k, h1k, hemp, hrk⟩ | ⟨k1, k2, h1k, hlt, hemp, hs1, hs2, hmid, hcn⟩
    · have hp : isPlayable (s + (k : Int) * d) = true := by
        refine playable_of_wf hwf ?_
        rcases hrk with hr | hr
        · rw [hr]; exact rookOf_ne_off c
        · rw [hr]; exact kingOf_ne_off c
      have hb : k ≤ 107 := ray_k_bound hs hp (orth_mem hi) rfl
      obtain ⟨k', rfl⟩ : ∃ k', k = k' + 1 := ⟨k - 1, by omega⟩
      refine @rayAtt0_complete_rk b c d k' 154 (s + d) (by omega) (fun j hj => ?_) ?_
      · rw [← hidx j]; exact hemp (j + 1) (by omega) (by omega)
      · rw [← hidx k']; exact hrk
    · have hp : isPlayable (s + (k2 : Int) * d) = true := by
        refine playable_of_wf hwf ?_
        rw [hcn]; exact cannonOf_ne_off c
      have hb : k2 ≤ 107 := ray_k_bound hs hp (orth_mem hi) rfl
      obtain ⟨k1', rfl⟩ : ∃ k1', k1 = k1' + 1 := ⟨k1 - 1, by omega⟩
      obtain ⟨k2', rfl⟩ : ∃ k2', k2 = k2' + 1 := ⟨k2 - 1, by omega⟩
      refine @rayAtt0_complete_cannon b c d k1' k2' 154 (s + d) (by omega) (by omega)
        (fun j hj => ?_) ?_ ?_ (fun j hj1 hj2 => ?_) ?_
      · rw [← hidx j]; exact hemp (j + 1) (by omega) (by omega)
      · rw [← hidx k1']; exact hs1
      · rw [← hidx k1']; exact hs2
      · rw [← hidx j]; exact hmid (j + 1) (by omega) (by omega)
      · rw [← hidx k2']; exact hcn

/-- C7 witness: on a board with only the two kings facing each other on
the open e-file, the characterization applies; black's king at square
126 line-attacks square 27 exactly as a rook would. -/
theorem C7_first_nonempty_rook_or_king_witness :
    WFBoard (boardOf [((27 : Int), W_KING), (126, B_KING)]) ∧
    isPlayable (27 : Int) = true ∧
    (lineAttacked (boardOf [((27 : Int), W_KING), (126, B_KING)]) 27 BLACK = true ↔
      ∃ i : Nat, i < 4 ∧
        (specRayRookKing (boardOf [((27 : Int), W_KING), (126, B_KING)]) 27
            (ORTHOGONALS i) BLACK ∨
         specRayCannon (boardOf [((27 : Int), W_KING), (126, B_KING)]) 27
            (ORTHOGONALS i) BLACK)) :=
  ⟨boardOf_wf _, by decide,
    C7_first_nonempty_rook_or_king (boardOf_wf _) (by decide)⟩

theorem king_piece_eq {p side : Nat} (ht : PIECE_TYPE p = KING)
    (hc : PIECE_COLOR p = side) : p = kingOf side := by
  have h15 : p < 15 := by
    by_contra h
    rw [PIECE_TYPE_default (by omega)] at ht
    simp [KING] at ht
  subst hc
  interval_cases p <;> revert ht <;> decide

/-- A candidate accepted by `pushMove` (empty or enemy-occupied target)
is never the sentinel value. -/
theorem push_target_ne_off {tp side : Nat} (hside : side = WHITE ∨ side = BLACK)
    (hg : tp = NO_PIECE ∨ PIECE_COLOR tp = side ^^^ 1) : tp ≠ OFFBOARD := by
  intro heq
  rw [heq] at hg
  rcases hside with rfl | rfl <;> rcases hg with h | h <;> revert h <;> decide

/-- The orthogonal direction table is closed under negation. -/
theorem orth_neg (i : Nat) (h : i < 4) :
    ∃ i2 : Nat, i2 < 4 ∧ ORTHOGONALS i2 = -ORTHOGONALS i := by
  interval_cases i
  · exact ⟨3, by decide, by decide⟩
  · exact ⟨2, by decide, by decide⟩
  · exact ⟨1, by decide, by decide⟩
  · exact ⟨0, by decide, by decide⟩

/-- Knight geometry: the generator's orthogonal move leg, seen from the
landing square, is one of the detector's diagonal legs, and the landing
offset is matched by the corresponding attack offset. -/
theorem knight_geom (i j : Nat) (hi : i < 4) (hj : j < 2) :
    ∃ i2 : Nat, i2 < 4 ∧ ∃ j2 : Nat, j2 < 2 ∧
      DIAGONALS i2 = ORTHOGONALS i - KNIGHT_MOVE_OFFSETS i j ∧
      KNIGHT_ATTACK_OFFSETS i2 j2 = - KNIGHT_MOVE_OFFSETS i j := by
  interval_cases i <;> interval_cases j
  · exact ⟨3, by decide, 0, by decide, by decide, by decide⟩
  · exact ⟨2, by decide, 0, by decide, by decide, by decide⟩
  · exact ⟨3, by decide, 1, by decide, by decide, by decide⟩
  · exact ⟨1, by decide, 1, by decide, by decide, by decide⟩
  · exact ⟨0, by decide, 1, by decide, by decide, by decide⟩
  · exact ⟨2, by decide, 1, by decide, by decide, by decide⟩
  · exact ⟨1, by decide, 0, by decide, by decide, by decide⟩
  · exact ⟨0, by decide, 0, by decide, by decide, by decide⟩

/-- From the far end of an empty stretch with the attacker's rook or
king at its origin, the reversed walk finds the attacker. -/
theorem rayAtt_rev_rk {b : Int → Nat} {c : Nat} {d s : Int} {k : Nat}
    (h1 : 1 ≤ k) (hk : k ≤ 153)
    (hemp : emptyUpTo b s d k)
    (hbs : b s = rookOf c ∨ b s = kingOf c) :
    rayAtt b c (-d) 154 (s + (k : Int) * d + -d) 0 = true := by
  obtain ⟨k', rfl⟩ : ∃ k', k = k' + 1 := ⟨k - 1, by omega⟩
  refine @rayAtt0_complete_rk b c (-d) k' 154 (s + ((k' + 1 : Nat) : Int) * d + -d)
    (by omega) (fun j hj => ?_) ?_
  · have hsq : s + ((k' + 1 : Nat) : Int) * d + -d + (j : Int) * (-d)
        = s + (((k' - j : Nat)) : Int) * d := by
      have hji : ((k' - j : Nat) : Int) = (k' : Int) - (j : Int) := by omega
      rw [hji]; push_cast; ring
    rw [hsq]
    exact hemp (k' - j) (by omega) (by omega)
  · have hsq : s + ((k' + 1 : Nat) : Int) * d + -d + ((k' : Nat) : Int) * (-d) = s := by
      push_cast; ring
    rw [hsq]
    exact hbs

/-- From the capture square of a one-screen cannon stretch, the
reversed walk finds the attacker's cannon behind exactly one screen. -/
theorem rayAtt_rev_cannon {b : Int → Nat} {c : Nat} {d s : Int} {k1 k2 : Nat}
    (h1 : 1 ≤ k1) (hlt : k1 < k2) (hk : k2 ≤ 153)
    (hemp : emptyUpTo b s d k1)
    (hs1 : b (s + (k1 : Int) * d) ≠ NO_PIECE)
    (hs2 : b (s + (k1 : Int) * d) ≠ OFFBOARD)
    (hmid : ∀ j : Nat, k1 < j → j < k2 → b (s + (j : Int) * d) = NO_PIECE)
    (hcs : b s = cannonOf c) :
    rayAtt b c (-d) 154 (s + (k2 : Int) * d + -d) 0 = true := by
  obtain ⟨k2', rfl⟩ : ∃ k2', k2 = k2' + 1 := ⟨k2 - 1, by omega⟩
  refine @rayAtt0_complete_cannon b c (-d) (k2' - k1) k2' 154
    (s + ((k2' + 1 : Nat) : Int) * d + -d)
    (by omega) (by omega) (fun j hj => ?_) ?_ ?_ (fun j hj1 hj2 => ?_) ?_
  · have hsq : s + ((k2' + 1 : Nat) : Int) * d + -d + (j : Int) * (-d)
        = s + (((k2' - j : Nat)) : Int) * d := by
      have hji : ((k2' - j : Nat) : Int) = (k2' : Int) - (j : Int) := by omega
      rw [hji]; push_cast; ring
    rw [hsq]
    exact hmid (k2' - j) (by omega) (by omega)
  · have hsq : s + ((k2' + 1 : Nat) : Int) * d + -d + ((k2' - k1 : Nat) : Int) * (-d)
        = s + ((k1 : Nat) : Int) * d := by
      have hji : ((k2' - k1 : Nat) : Int) = (k2' : Int) - (k1 : Int) := by omega
      rw [hji]; push_cast; ring
    rw [hsq]
    exact hs1
  · have hsq : s + ((k2' + 1 : Nat) : Int) * d + -d + ((k2' - k1 : Nat) : Int) * (-d)
        = s + ((k1 : Nat) : Int) * d := by
      have hji : ((k2' - k1 : Nat) : Int) = (k2' : Int) - (k1 : Int) := by omega
      rw [hji]; push_cast; ring
    rw [hsq]
    exact hs2
  · have hsq : s + ((k2' + 1 : Nat) : Int) * d + -d + (j : Int) * (-d)
        = s + (((k2' - j : Nat)) : Int) * d := by
      have hji : ((k2' - j : Nat) : Int) = (k2' : Int) - (j : Int) := by omega
      rw [hji]; push_cast; ring
    rw [hsq]
    exact hemp (k2' - j) (by omega) (by omega)
  · have hsq : s + ((k2' + 1 : Nat) : Int) * d + -d + ((k2' : Nat) : Int) * (-d) = s := by
      push_cast; ring
    rw [hsq]
    exact hcs

theorem kingBlock_of_mem {b : Int → Nat} {side : Nat} {s : Int} {cap : Bool} {m : Move}
    (h : m ∈ movesFromSquare b side s cap) (hty : PIECE_TYPE (b s) = KING) :
    m ∈ kingAdvisorBlockMoves b side s KING cap := by
  have h2 := mem_blocks_of_mem h
  rw [hty] at h2
  rw [if_neg (by decide : ¬(KING : Nat) = PAWN),
    if_pos (by decide : (KING : Nat) = KING ∨ (KING : Nat) = ADVISOR),
    if_neg (by decide : ¬(KING : Nat) = BISHOP),
    if_neg (by decide : ¬(KING : Nat) = KNIGHT),
    if_neg (by decide : ¬((KING : Nat) = ROOK ∨ (KING : Nat) = CANNON))] at h2
  simpa using h2

/-- C4 (amended): the claimed equivalence fails in general (see the
counterexample: advisor moves — and likewise king, bishop and some pawn
moves — can target squares the detector does not report), but the
sound direction holds for the line and knight pieces: every generated
rook move, knight move, king move and cannon capture targets a square
that `isSquareAttacked` reports as attacked by the moving side. -/
theorem C4_amended_generated_targets_attacked (pos : Position) (cap : Bool) (m : Move)
    (hwf : WFBoard pos.board)
    (hside : pos.sideToMove = WHITE ∨ pos.sideToMove = BLACK)
    (hm : m ∈ generateMoves pos cap)
    (hty : PIECE_TYPE (getSourcePiece m) = ROOK ∨ PIECE_TYPE (getSourcePiece m) = KNIGHT ∨
      PIECE_TYPE (getSourcePiece m) = KING ∨
      (PIECE_TYPE (getSourcePiece m) = CANNON ∧ getCaptureFlag m = 1)) :
    isSquareAttacked pos.board (getTargetSquare m) pos.sideToMove = true := by
  obtain ⟨n, hn, hmem⟩ := mem_generateMoves.mp hm
  obtain ⟨hsrc, hsp, hnb, hcol⟩ := shape_of_mem_movesFromSquare hmem
  have hps : isPlayable (Int.ofNat n) = true := playable_of_wf hwf hnb
  rw [isSquareAttacked, Bool.or_eq_true, Bool.or_eq_true]
  rcases hty with hR | hN | hK | ⟨hC, hflag⟩
  · have hty2 : PIECE_TYPE (pos.board (Int.ofNat n)) = ROOK := by rw [← hsp]; exact hR
    have hray := rookRay_of_mem hmem hty2
    simp only [rookCannonBlockMoves, List.mem_flatMap, List.mem_range] at hray
    obtain ⟨i, hi, hr⟩ := hray
    have h0 : (Int.ofNat n) + ORTHOGONALS i =
        (Int.ofNat n) + (((0 : Nat) : Int) + 1) * ORTHOGONALS i := by push_cast; ring
    have hvac : ∀ j : Nat, 1 ≤ j → j ≤ 0 →
        pos.board ((Int.ofNat n) + (j : Int) * ORTHOGONALS i) = NO_PIECE := by
      intro j h1 h2
      omega
    obtain ⟨k, hk1, htgt, hemp, hpush⟩ := rcRay_rook_emission 154 0 _ m h0 hvac hr
    have htoff : pos.board ((Int.ofNat n) + (k : Int) * ORTHOGONALS i) ≠ OFFBOARD :=
      push_target_ne_off hside (mem_pushMove.mp hpush).1
    have hkb : k ≤ 107 :=
      ray_k_bound hps (playable_of_wf hwf htoff) (orth_mem hi) rfl
    have hbs : pos.board (Int.ofNat n) = rookOf pos.sideToMove := rook_piece_eq hty2 hcol
    obtain ⟨i2, hi2, hneg⟩ := orth_neg i hi
    refine Or.inl (Or.inr ?_)
    rw [lineAttacked, List.any_eq_true]
    refine ⟨i2, List.mem_range.mpr hi2, ?_⟩
    rw [hneg, htgt]
    exact rayAtt_rev_rk (by omega) (by omega) hemp (Or.inl hbs)
  · have hty2 : PIECE_TYPE (pos.board (Int.ofNat n)) = KNIGHT := by rw [← hsp]; exact hN
    have hk := knightBlock_of_mem hmem hty2
    simp only [knightBlockMoves, List.mem_flatMap, List.mem_range] at hk
    obtain ⟨i, hi, hm2⟩ := hk
    by_cases hleg : pos.board ((Int.ofNat n) + ORTHOGONALS i) = NO_PIECE
    swap
    · rw [if_neg hleg] at hm2
      simp at hm2
    rw [if_pos hleg] at hm2
    simp only [List.mem_flatMap, List.mem_range] at hm2
    obtain ⟨j, hj, hm3⟩ := hm2
    by_cases hto : pos.board ((Int.ofNat n) + KNIGHT_MOVE_OFFSETS i j) ≠ OFFBOARD
    swap
    · rw [if_neg hto] at hm3
      simp at hm3
    rw [if_pos hto] at hm3
    have htgt := (fields_of_mem_push hm3).2.1
    have hbs : pos.board (Int.ofNat n) = knightOf pos.sideToMove := knight_piece_eq hty2 hcol
    obtain ⟨i2, hi2, j2, hj2, hdiag, hka⟩ := knight_geom i j hi hj
    refine Or.inl (Or.inl ?_)
    rw [knightAttacked, List.any_eq_true]
    refine ⟨i2, List.mem_range.mpr hi2, ?_⟩
    have hleg2 : pos.board (getTargetSquare m + DIAGONALS i2) = NO_PIECE := by
      have hlegsq : getTargetSquare m + DIAGONALS i2 = (Int.ofNat n) + ORTHOGONALS i := by
        show m.targetSquare + _ = _
        rw [htgt, hdiag]; ring
      rw [hlegsq]
      exact hleg
    rw [if_pos hleg2, List.any_eq_true]
    refine ⟨j2, List.mem_range.mpr hj2, ?_⟩
    have hasq : getTargetSquare m + KNIGHT_ATTACK_OFFSETS i2 j2 = Int.ofNat n := by
      show m.targetSquare + _ = _
      rw [htgt, hka]; ring
    rw [hasq, hbs]
    exact beq_self_eq_true _
  · have hty2 : PIECE_TYPE (pos.board (Int.ofNat n)) = KING := by rw [← hsp]; exact hK
    have hk := kingBlock_of_mem hmem hty2
    simp only [kingAdvisorBlockMoves, List.mem_flatMap, List.mem_range, if_true] at hk
    obtain ⟨i, hi, hm2⟩ := hk
    by_cases hz : BOARD_ZONES pos.sideToMove ((Int.ofNat n) + ORTHOGONALS i) = 2
    swap
    · rw [if_neg hz] at hm2
      simp at hm2
    rw [if_pos hz] at hm2
    have htgt := (fields_of_mem_push hm2).2.1
    have hbs : pos.board (Int.ofNat n) = kingOf pos.sideToMove := king_piece_eq hty2 hcol
    obtain ⟨i2, hi2, hneg⟩ := orth_neg i hi
    refine Or.inl (Or.inr ?_)
    rw [lineAttacked, List.any_eq_true]
    refine ⟨i2, List.mem_range.mpr hi2, ?_⟩
    have hbase : getTargetSquare m + -ORTHOGONALS i =
        (Int.ofNat n) + ((1 : Nat) : Int) * ORTHOGONALS i + -ORTHOGONALS i := by
      show m.targetSquare + _ = _
      rw [htgt]; push_cast; ring
    rw [hneg, hbase]
    exact rayAtt_rev_rk (by omega) (by omega)
      (fun j hj h1j => absurd hj (by omega)) (Or.inr hbs)
  · have hty2 : PIECE_TYPE (pos.board (Int.ofNat n)) = CANNON := by rw [← hsp]; exact hC
    have hray := cannonRay_of_mem hmem hty2
    simp only [rookCannonBlockMoves, List.mem_flatMap, List.mem_range] at hray
    obtain ⟨i, hi, hr⟩ := hray
    have h0 : (Int.ofNat n) + ORTHOGONALS i =
        (Int.ofNat n) + (((0 : Nat) : Int) + 1) * ORTHOGONALS i := by push_cast; ring
    have hvac : ∀ j : Nat, 1 ≤ j → j ≤ 0 →
        pos.board ((Int.ofNat n) + (j : Int) * ORTHOGONALS i) = NO_PIECE := by
      intro j h1 h2
      omega
    rcases rcRay_cannon_phaseA 154 0 _ m h0 hvac hr with hq | hc2
    · obtain ⟨k, _, _, _, hk4, hk5⟩ := hq
      rcases (mem_pushMove.mp hk5).2 with ⟨hne, _⟩ | ⟨_, _, heq⟩
      · exact absurd hk4 hne
      · rw [heq] at hflag
        simp [getCaptureFlag] at hflag
    · obtain ⟨k1, k2, h1, h2, h3, h4, h5, h6, h7, h8, h9⟩ := hc2
      have htoff : pos.board ((Int.ofNat n) + (k2 : Int) * ORTHOGONALS i) ≠ OFFBOARD :=
        push_target_ne_off hside (mem_pushMove.mp h9).1
      have hkb : k2 ≤ 107 :=
        ray_k_bound hps (playable_of_wf hwf htoff) (orth_mem hi) rfl
      have hbs : pos.board (Int.ofNat n) = cannonOf pos.sideToMove := cannon_piece_eq hty2 hcol
      obtain ⟨i2, hi2, hneg⟩ := orth_neg i hi
      refine Or.inl (Or.inr ?_)
      rw [lineAttacked, List.any_eq_true]
      refine ⟨i2, List.mem_range.mpr hi2, ?_⟩
      rw [hneg, h7]
      exact rayAtt_rev_cannon h1 h2 (by omega) h3 h4 h5 h6 hbs

/-- C4 amended witness: in `P5` the generated cannon capture b2xb6
targets a square the detector reports as attacked by red. -/
theorem C4_amended_witness :
    WFBoard P5.board ∧ (P5.sideToMove = WHITE ∨ P5.sideToMove = BLACK) ∧
    m5 ∈ generateMoves P5 false ∧
    (PIECE_TYPE (getSourcePiece m5) = ROOK ∨ PIECE_TYPE (getSourcePiece m5) = KNIGHT ∨
      PIECE_TYPE (getSourcePiece m5) = KING ∨
      (PIECE_TYPE (getSourcePiece m5) = CANNON ∧ getCaptureFlag m5 = 1)) ∧
    isSquareAttacked P5.board (getTargetSquare m5) P5.sideToMove = true :=
  ⟨boardOf_wf _, by decide, by decide, by decide,
    C4_amended_generated_targets_attacked P5 false m5 (boardOf_wf _) (by decide) (by decide)
      (by decide)⟩

theorem char_toNat_mono {c d : Char} (h : c ≤ d) : c.toNat ≤ d.toNat := by
  simpa [Char.toNat, UInt32.toNat, Char.le_def, UInt32.le_def, Fin.le_def] using h

theorem orth_bound {i : Nat} (h : i < 4) : -11 ≤ ORTHOGONALS i ∧ ORTHOGONALS i ≤ 11 := by
  interval_cases i <;> exact ⟨by decide, by decide⟩

theorem diag_bound {i : Nat} (h : i < 4) : -12 ≤ DIAGONALS i ∧ DIAGONALS i ≤ 12 := by
  interval_cases i <;> exact ⟨by decide, by decide⟩

theorem km_bound {i : Nat} (hi : i < 4) {j : Nat} (hj : j < 2) :
    -23 ≤ KNIGHT_MOVE_OFFSETS i j ∧ KNIGHT_MOVE_OFFSETS i j ≤ 23 := by
  interval_cases i <;> interval_cases j <;> exact ⟨by decide, by decide⟩

theorem ka_bound {i : Nat} (hi : i < 4) {j : Nat} (hj : j < 2) :
    -23 ≤ KNIGHT_ATTACK_OFFSETS i j ∧ KNIGHT_ATTACK_OFFSETS i j ≤ 23 := by
  interval_cases i <;> interval_cases j <;> exact ⟨by decide, by decide⟩

theorem bishop_mem {i : Nat} (h : i < 4) :
    BISHOP_MOVE_OFFSETS i = -24 ∨ BISHOP_MOVE_OFFSETS i = -20 ∨
    BISHOP_MOVE_OFFSETS i = 20 ∨ BISHOP_MOVE_OFFSETS i = 24 := by
  interval_cases i <;> decide

theorem pawn_move_default (side dir : Nat) : PAWN_MOVE_OFFSETS (side + 2) dir = 0 := rfl

theorem pawn_att_default (c dir : Nat) : PAWN_ATTACK_OFFSETS (c + 2) dir = 0 := rfl

theorem pawn_move_bound (side : Nat) {dir : Nat} (h : dir < 3) :
    -11 ≤ PAWN_MOVE_OFFSETS side dir ∧ PAWN_MOVE_OFFSETS side dir ≤ 11 := by
  match side with
  | 0 => interval_cases dir <;> exact ⟨by decide, by decide⟩
  | 1 => interval_cases dir <;> exact ⟨by decide, by decide⟩
  | n + 2 =>
    rw [pawn_move_default]
    exact ⟨by decide, by decide⟩

theorem pawn_att_bound (c : Nat) {dir : Nat} (h : dir < 2) :
    -11 ≤ PAWN_ATTACK_OFFSETS c dir ∧ PAWN_ATTACK_OFFSETS c dir ≤ 11 := by
  match c with
  | 0 => interval_cases dir <;> exact ⟨by decide, by decide⟩
  | 1 => interval_cases dir <;> exact ⟨by decide, by decide⟩
  | n + 2 =>
    rw [pawn_att_default]
    exact ⟨by decide, by decide⟩

/-- A store at a playable square preserves sentinel well-formedness. -/
theorem setSq_wf {b : Int → Nat} (hwf : WFBoard b) {t : Int} (ht : isPlayable t = true)
    (v : Nat) : WFBoard (setSq b t v) := by
  intro i hnp
  show (if i = t then v else b i) = OFFBOARD
  split
  · next heq =>
    subst heq
    rw [hnp] at ht
    simp at ht
  · exact hwf i hnp

/-- On a well-formed board, every square visited by an orthogonal ray
walk stays inside the array: the walk stops at the sentinel border. -/
theorem rayWalkProbes_bounds {b : Int → Nat} (hwf : WFBoard b) {d : Int}
    (hd : d = -11 ∨ d = -1 ∨ d = 1 ∨ d = 11) :
    ∀ (fuel : Nat) (t : Int), 12 ≤ t → t ≤ 141 →
    ∀ i ∈ rayWalkProbes b d fuel t, 0 ≤ i ∧ i < 154 := by
  intro fuel
  induction fuel with
  | zero =>
    intro t ht1 ht2 i hi
    simp [rayWalkProbes] at hi
  | succ f ih =>
    intro t ht1 ht2 i hi
    rw [rayWalkProbes] at hi
    rcases List.mem_cons.mp hi with rfl | hi2
    · omega
    · by_cases hoff : b t = OFFBOARD
      · rw [if_pos hoff] at hi2
        simp at hi2
      · rw [if_neg hoff] at hi2
        have hpl := playable_range (playable_of_wf hwf hoff)
        exact ih (t + d) (by rcases hd with rfl | rfl | rfl | rfl <;> omega)
          (by rcases hd with rfl | rfl | rfl | rfl <;> omega) i hi2

/-- The file index passed to the next iteration of the placement file
loop stays non-negative (a digit run advances the index by its
non-negative value). -/
theorem parseFiles_next_f_nonneg {f : Int} (hf : 0 ≤ f) (st1 : ParseSt) (s : Int) :
    0 ≤ (if '0' ≤ st1.tok ∧ st1.tok ≤ '9' then
        ((if st1.b s = NO_PIECE then f - 1 else f) +
          ((st1.tok.toNat : Int) - ('0'.toNat : Int)), true)
      else (f, false)).1 + 1 := by
  split
  · next h =>
    have h48 := char_toNat_mono h.1
    have h0 : ('0'.toNat : Nat) = 48 := by decide
    rw [h0] at h48
    show 0 ≤ (if st1.b s = NO_PIECE then f - 1 else f) +
      ((st1.tok.toNat : Int) - ('0'.toNat : Int)) + 1
    rw [show (('0'.toNat : Nat) : Int) = 48 from by decide]
    split <;> omega
  · show 0 ≤ f + 1
    omega

/-- Every cell probed by the placement file loop for rank `r` lies
inside the array. -/
theorem parseFilesProbes_bounds {r : Int} (hr0 : 0 ≤ r) (hr1 : r ≤ 13) :
    ∀ (fuel : Nat) (f : Int) (st : ParseSt), 0 ≤ f →
    ∀ i ∈ parseFilesProbes r fuel f st, 0 ≤ i ∧ i < 154 := by
  intro fuel
  induction fuel with
  | zero =>
    intro f st hf i hi
    simp [parseFilesProbes] at hi
  | succ fu ih =>
    intro f st hf i hi
    simp only [parseFilesProbes] at hi
    by_cases h10 : f > 10
    · rw [if_pos h10] at hi
      simp at hi
    rw [if_neg h10] at hi
    by_cases hob : st.b (11 * r + f) ≠ OFFBOARD
    · rw [if_pos hob] at hi
      rcases List.mem_cons.mp hi with rfl | hi2
      · omega
      · exact ih _ _ (parseFiles_next_f_nonneg hf _ _) i hi2
    · rw [if_neg hob] at hi
      rcases List.mem_cons.mp hi with rfl | hi2
      · omega
      · exact ih _ _ (by omega) i hi2

/-- Every cell probed by the placement rank loop lies inside the
array. -/
theorem parseRanksProbes_bounds :
    ∀ (n : Nat), n ≤ 14 → ∀ (st : ParseSt), ∀ i ∈ parseRanksProbes n st,
    0 ≤ i ∧ i < 154 := by
  intro n
  induction n with
  | zero =>
    intro _ st i hi
    simp [parseRanksProbes] at hi
  | succ m ih =>
    intro hle st i hi
    rw [parseRanksProbes] at hi
    rcases List.mem_append.mp hi with h | h
    · refine parseFilesProbes_bounds (Int.ofNat_nonneg m) ?_ 400 0 st (le_refl 0) i h
      exact_mod_cast (by omega : m ≤ 13)
    · exact ih (by omega) _ i h

/-- Every index probed by `Position::set` lies inside the array. -/
theorem setProbes_bounds (fen : String) : ∀ i ∈ setProbes fen, 0 ≤ i ∧ i < 154 := by
  intro i hi
  simp only [setProbes] at hi
  rcases List.mem_append.mp hi with h | h
  · obtain ⟨n, hn, rfl⟩ := List.mem_map.mp h
    rw [List.mem_range] at hn
    refine ⟨Int.ofNat_nonneg n, ?_⟩
    rw [Int.ofNat_eq_natCast]
    exact_mod_cast hn
  · exact parseRanksProbes_bounds 14 (le_refl 14) _ i h

/-- Every index probed by `isSquareAttacked` on a playable square of a
well-formed board lies inside the array. -/
theorem attackProbes_bounds {b : Int → Nat} (hwf : WFBoard b) {s : Int}
    (hs : isPlayable s = true) {c : Nat} :
    ∀ i ∈ attackProbes b s c, 0 ≤ i ∧ i < 154 := by
  have hp := playable_range hs
  intro i hi
  rw [attackProbes] at hi
  rcases List.mem_append.mp hi with h | h
  · rcases List.mem_append.mp h with h | h
    · simp only [List.mem_flatMap, List.mem_range] at h
      obtain ⟨j, hj, hmem⟩ := h
      rcases List.mem_cons.mp hmem with rfl | h2
      · have := diag_bound hj
        omega
      · by_cases he : b (s + DIAGONALS j) = NO_PIECE
        · rw [if_pos he] at h2
          simp only [List.mem_cons, List.not_mem_nil, or_false] at h2
          rcases h2 with rfl | rfl
          · have := @ka_bound j hj 0 (by omega)
            omega
          · have := @ka_bound j hj 1 (by omega)
            omega
        · rw [if_neg he] at h2
          simp at h2
    · simp only [List.mem_flatMap, List.mem_range] at h
      obtain ⟨j, hj, hmem⟩ := h
      have ho := orth_bound hj
      exact rayWalkProbes_bounds hwf (orth_mem hj) 154 (s + ORTHOGONALS j)
        (by omega) (by omega) i hmem
  · simp only [List.mem_cons, List.not_mem_nil, or_false] at h
    rcases h with rfl | rfl
    · have := @pawn_att_bound c 0 (by omega)
      omega
    · have := @pawn_att_bound c 1 (by omega)
      omega

/-- Every index probed by the `generateMoves` body for one in-array
source square on a well-formed board lies inside the array — provided
no bishop of the moving side stands on a corner of the playable region
(squares 23 and 130), where the unconditional bishop target probe
escapes the array. -/
theorem squareProbes_bounds {b : Int → Nat} {side : Nat} (hwf : WFBoard b)
    (hc23 : ¬(PIECE_TYPE (b 23) = BISHOP ∧ PIECE_COLOR (b 23) = side))
    (hc130 : ¬(PIECE_TYPE (b 130) = BISHOP ∧ PIECE_COLOR (b 130) = side))
    {s : Int} (h0 : 0 ≤ s) (h1 : s < 154) :
    ∀ i ∈ squareProbes b side s, 0 ≤ i ∧ i < 154 := by
  intro i hi
  simp only [squareProbes] at hi
  rcases List.mem_cons.mp hi with rfl | hi2
  · omega
  by_cases hob : b s ≠ OFFBOARD
  swap
  · rw [if_neg hob] at hi2
    simp at hi2
  rw [if_pos hob] at hi2
  have hp := playable_range (playable_of_wf hwf hob)
  by_cases hcg : PIECE_COLOR (b s) = side
  swap
  · rw [if_neg hcg] at hi2
    simp at hi2
  rw [if_pos hcg] at hi2
  rcases List.mem_append.mp hi2 with h4 | h5
  · rcases List.mem_append.mp h4 with h3 | h4
    · rcases List.mem_append.mp h3 with h2 | h3
      · rcases List.mem_append.mp h2 with h1p | h2
        · by_cases hpt : PIECE_TYPE (b s) = PAWN
          swap
          · rw [if_neg hpt] at h1p
            simp at h1p
          rw [if_pos hpt] at h1p
          obtain ⟨dir, hdir, rfl⟩ := List.mem_map.mp h1p
          have hd3 : dir < 3 := by
            by_cases hz : BOARD_ZONES side s ≠ 0
            · rw [if_pos hz] at hdir
              simp at hdir
              omega
            · rw [if_neg hz] at hdir
              simp at hdir
              rcases hdir with rfl | rfl | rfl <;> omega
          have hb := pawn_move_bound side hd3
          omega
        · by_cases hpt : PIECE_TYPE (b s) = KING ∨ PIECE_TYPE (b s) = ADVISOR
          swap
          · rw [if_neg hpt] at h2
            simp at h2
          rw [if_pos hpt] at h2
          obtain ⟨j, hj, rfl⟩ := List.mem_map.mp h2
          rw [List.mem_range] at hj
          have ho := orth_bound hj
          have hdg := diag_bound hj
          split <;> omega
      · by_cases hpt : PIECE_TYPE (b s) = BISHOP
        swap
        · rw [if_neg hpt] at h3
          simp at h3
        rw [if_pos hpt] at h3
        simp only [List.mem_flatMap, List.mem_range] at h3
        obtain ⟨j, hj, hmem⟩ := h3
        have hs23 : s ≠ 23 := fun he => hc23 ⟨he ▸ hpt, he ▸ hcg⟩
        have hs130 : s ≠ 130 := fun he => hc130 ⟨he ▸ hpt, he ▸ hcg⟩
        simp only [List.mem_cons, List.not_mem_nil, or_false] at hmem
        rcases hmem with rfl | rfl
        · rcases bishop_mem hj with hb | hb | hb | hb <;> rw [hb] <;> omega
        · have := diag_bound hj
          omega
    · by_cases hpt : PIECE_TYPE (b s) = KNIGHT
      swap
      · rw [if_neg hpt] at h4
        simp at h4
      rw [if_pos hpt] at h4
      simp only [List.mem_flatMap, List.mem_range] at h4
      obtain ⟨j, hj, hmem⟩ := h4
      rcases List.mem_cons.mp hmem with rfl | hmem2
      · have := orth_bound hj
        omega
      · by_cases hleg : b (s + ORTHOGONALS j) = NO_PIECE
        swap
        · rw [if_neg hleg] at hmem2
          simp at hmem2
        rw [if_pos hleg] at hmem2
        simp only [List.mem_cons, List.not_mem_nil, or_false] at hmem2
        rcases hmem2 with rfl | rfl
        · have := @km_bound j hj 0 (by omega)
          omega
        · have := @km_bound j hj 1 (by omega)
          omega
  · by_cases hpt : PIECE_TYPE (b s) = ROOK ∨ PIECE_TYPE (b s) = CANNON
    swap
    · rw [if_neg hpt] at h5
      simp at h5
    rw [if_pos hpt] at h5
    simp only [List.mem_flatMap, List.mem_range] at h5
    obtain ⟨j, hj, hmem⟩ := h5
    have ho := orth_bound hj
    exact rayWalkProbes_bounds hwf (orth_mem hj) 154 (s + ORTHOGONALS j)
      (by omega) (by omega) i hmem

/-- Every index probed by `generateMoves` on a well-formed board lies
inside the array, under the corner-bishop proviso. -/
theorem genProbes_bounds {b : Int → Nat} {side : Nat} (hwf : WFBoard b)
    (hc23 : ¬(PIECE_TYPE (b 23) = BISHOP ∧ PIECE_COLOR (b 23) = side))
    (hc130 : ¬(PIECE_TYPE (b 130) = BISHOP ∧ PIECE_COLOR (b 130) = side)) :
    ∀ i ∈ genProbes b side, 0 ≤ i ∧ i < 154 := by
  intro i hi
  simp only [genProbes, List.mem_flatMap, List.mem_range] at hi
  obtain ⟨n, hn, hmem⟩ := hi
  refine squareProbes_bounds hwf hc23 hc130 (Int.ofNat_nonneg n) ?_ i hmem
  exact_mod_cast hn

/-- Every index probed by `undo_move` lies inside the array when the
move's squares are playable. -/
theorem undoProbes_bounds {move : Move}
    (hsrc : isPlayable (getSourceSquare move) = true)
    (htgt : isPlayable (getTargetSquare move) = true) :
    ∀ i ∈ undoProbes move, 0 ≤ i ∧ i < 154 := by
  have h1 := playable_range hsrc
  have h2 := playable_range htgt
  intro i hi
  rw [undoProbes] at hi
  rcases List.mem_append.mp hi with h | h
  · rcases List.mem_append.mp h with h | h
    · simp only [List.mem_cons, List.not_mem_nil, or_false] at h
      rcases h with rfl | rfl <;> omega
    · by_cases hf : getCaptureFlag move ≠ 0
      · rw [if_pos hf] at h
        rw [List.mem_singleton] at h
        subst h
        omega
      · rw [if_neg hf] at h
        simp at h
  · rw [List.mem_singleton] at h
    subst h
    omega

/-- Every index probed by `make_move` lies inside the array when the
move's squares, the king cache, and the board are well-formed. -/
theorem makeProbes_bounds {pos : Position} {move : Move}
    (hwf : WFBoard pos.board)
    (hsrc : isPlayable (getSourceSquare move) = true)
    (htgt : isPlayable (getTargetSquare move) = true)
    (hkW : isPlayable pos.kingW = true)
    (hkB : isPlayable pos.kingB = true) :
    ∀ i ∈ makeProbes pos move, 0 ≤ i ∧ i < 154 := by
  have h1 := playable_range hsrc
  have h2 := playable_range htgt
  have hwf1 : WFBoard (setSq (setSq pos.board (getTargetSquare move) (getSourcePiece move))
      (getSourceSquare move) NO_PIECE) := setSq_wf (setSq_wf hwf htgt _) hsrc _
  intro i hi
  simp only [makeProbes] at hi
  rcases List.mem_append.mp hi with h | h
  · rcases List.mem_append.mp h with h | h
    · simp only [List.mem_cons, List.not_mem_nil, or_false] at h
      rcases h with rfl | rfl | rfl <;> omega
    · refine attackProbes_bounds hwf1 ?_ i h
      split_ifs <;> first | exact htgt | exact hkW | exact hkB
  · simp only [List.mem_ite_nil_right] at h
    exact undoProbes_bounds hsrc htgt i h.2

/-- C9: refuted: with a red bishop on the corner square i9 (130), the
bishop block of `generateMoves` probes `board[130 + 24] = board[154]`,
one past the last array cell (`SQUARE_NB` is 154); symmetrically a
bishop on a0 (23) probes `board[-1]`. -/
theorem C9_counterexample :
    (154 : Int) ∈ genProbes P9.board P9.sideToMove ∧ ¬((154 : Int) < SQUARE_NB) := by
  constructor
  · decide
  · decide

/-- C9 (amended): every board access of `set` is in bounds
unconditionally; every access of `isSquareAttacked` on a playable
square of a well-formed board is in bounds; every access of
`generateMoves` is in bounds provided no bishop of the moving side
stands on a playable-region corner (squares 23 or 130) — there its
unconditional target probe reads `board[-1]` or `board[154]`; and every
access of `make_move`/`undo_move` is in bounds when the move's squares
and the cached king squares are playable. -/
theorem C9_amended_board_access_bounds (fen : String) (b : Int → Nat) (side c : Nat)
    (s : Int) (pos : Position) (move : Move)
    (hwf : WFBoard b) (hs : isPlayable s = true)
    (hc23 : ¬(PIECE_TYPE (b 23) = BISHOP ∧ PIECE_COLOR (b 23) = side))
    (hc130 : ¬(PIECE_TYPE (b 130) = BISHOP ∧ PIECE_COLOR (b 130) = side))
    (hwfp : WFBoard pos.board)
    (hsrc : isPlayable (getSourceSquare move) = true)
    (htgt : isPlayable (getTargetSquare move) = true)
    (hkW : isPlayable pos.kingW = true)
    (hkB : isPlayable pos.kingB = true) :
    (∀ i ∈ setProbes fen, 0 ≤ i ∧ i < SQUARE_NB) ∧
    (∀ i ∈ attackProbes b s c, 0 ≤ i ∧ i < SQUARE_NB) ∧
    (∀ i ∈ genProbes b side, 0 ≤ i ∧ i < SQUARE_NB) ∧
    (∀ i ∈ makeProbes pos move, 0 ≤ i ∧ i < SQUARE_NB) ∧
    (∀ i ∈ undoProbes move, 0 ≤ i ∧ i < SQUARE_NB) :=
  ⟨setProbes_bounds fen, attackProbes_bounds hwf hs,
    genProbes_bounds hwf hc23 hc130, makeProbes_bounds hwfp hsrc htgt hkW hkB,
    undoProbes_bounds hsrc htgt⟩

/-- C9 amended witness: the bounds apply to the king-only position `P5`
(generation and attack probes), the position `P1` with king move `m1`
(make/undo probes), and a concrete FEN (setup probes). -/
theorem C9_amended_witness :
    WFBoard P5.board ∧ isPlayable (27 : Int) = true ∧
    ¬(PIECE_TYPE (P5.board 23) = BISHOP ∧ PIECE_COLOR (P5.board 23) = P5.sideToMove) ∧
    ¬(PIECE_TYPE (P5.board 130) = BISHOP ∧ PIECE_COLOR (P5.board 130) = P5.sideToMove) ∧
    WFBoard P1.board ∧ isPlayable (getSourceSquare m1) = true ∧
    isPlayable (getTargetSquare m1) = true ∧
    isPlayable P1.kingW = true ∧ isPlayable P1.kingB = true ∧
    ((∀ i ∈ setProbes "3k5/9/9/9/9/9/9/9/9/4K4 w - - 0 1", 0 ≤ i ∧ i < SQUARE_NB) ∧
     (∀ i ∈ attackProbes P5.board 27 WHITE, 0 ≤ i ∧ i < SQUARE_NB) ∧
     (∀ i ∈ genProbes P5.board P5.sideToMove, 0 ≤ i ∧ i < SQUARE_NB) ∧
     (∀ i ∈ makeProbes P1 m1, 0 ≤ i ∧ i < SQUARE_NB) ∧
     (∀ i ∈ undoProbes m1, 0 ≤ i ∧ i < SQUARE_NB)) :=
  ⟨boardOf_wf _, by decide, by decide, by decide, boardOf_wf _, by decide, by decide,
    by decide, by decide,
    C9_amended_board_access_bounds "3k5/9/9/9/9/9/9/9/9/4K4 w - - 0 1" P5.board
      P5.sideToMove WHITE 27 P1 m1 (boardOf_wf _) (by decide) (by decide) (by decide)
      (boardOf_wf _) (by decide) (by decide) (by decide) (by decide)⟩

theorem make_move_hashKey (pos : Position) (m : Move) (n : StateRec) :
    ((make_move pos m n).1 = true → ((make_move pos m n).2).hashKey = pos.hashKey) ∧
    ((make_move pos m n).1 = false → ((make_move pos m n).2).hashKey = n.hashKey) := by
  simp only [make_move]
  repeat' split
  all_goals refine ⟨fun h => ?_, fun h => ?_⟩
  all_goals first | rfl | simp at h

/-- C10 (amended): the identity key is 0 after `set` (both in the
position and in the caller's record, via `set_state`), and no operation
ever combines a piece, square or side value into it; `make_move`
preserves it on a legal move, while `undo_move` — and `make_move`'s
internal rejection path — assign it from the caller-supplied record's
(uninitialized) `hashKey` field, so it stays 0 only when every caller
record held 0. -/
theorem C10_amended_hash_key :
    (∀ fen : String, (set fen).hashKey = 0 ∧ (set fen).stTop.hashKey = 0) ∧
    (∀ (pos : Position) (m : Move) (n : StateRec),
      (make_move pos m n).1 = true → ((make_move pos m n).2).hashKey = pos.hashKey) ∧
    (∀ (pos : Position) (m : Move), (undo_move pos m).hashKey = pos.stTop.hashKey) ∧
    (∀ (pos : Position) (m : Move) (n : StateRec),
      (make_move pos m n).1 = false → ((make_move pos m n).2).hashKey = n.hashKey) :=
  ⟨fun _ => ⟨rfl, rfl⟩,
   fun pos m n => (make_move_hashKey pos m n).1,
   fun _ _ => rfl,
   fun pos m n => (make_move_hashKey pos m n).2⟩

/-- C10 witness: the legal king step in the `set`-built position `P10`
keeps the hash key at its pre-move value. -/
theorem C10_amended_witness :
    (make_move P10 m10 ⟨7, 9⟩).1 = true ∧
    ((make_move P10 m10 ⟨7, 9⟩).2).hashKey = P10.hashKey :=
  ⟨by decide, C10_amended_hash_key.2.1 P10 m10 ⟨7, 9⟩ (by decide)⟩

/-- C6 (amended): the detector's knight test examines the four DIAGONAL
leg squares adjacent to `s`: it reports a knight attack exactly when
some diagonal neighbour of `s` is empty and an attacking knight stands
on one of the two squares whose jump that neighbour blocks. -/
theorem C6_amended_diagonal_legs (b : Int → Nat) (s : Int) (c : Nat) :
    knightAttacked b s c = true ↔ knightAttackedDiagSpec b s c := by
  unfold knightAttacked knightAttackedDiagSpec
  simp only [List.any_eq_true, List.mem_range]
  constructor
  · rintro ⟨i, hi, hcond⟩
    split at hcond
    case isTrue hleg =>
      simp only [List.any_eq_true, List.mem_range, beq_iff_eq] at hcond
      obtain ⟨j, hj, hkn⟩ := hcond
      interval_cases i <;> interval_cases j <;>
        simp only [DIAGONALS, KNIGHT_ATTACK_OFFSETS] at hleg hkn
      · exact ⟨-1, -1, Or.inr rfl, Or.inr rfl, by convert hleg using 2; ring,
          Or.inl (by convert hkn using 2; ring)⟩
      · exact ⟨-1, -1, Or.inr rfl, Or.inr rfl, by convert hleg using 2; ring,
          Or.inr (by convert hkn using 2; ring)⟩
      · exact ⟨-1, 1, Or.inr rfl, Or.inl rfl, by convert hleg using 2; ring,
          Or.inl (by convert hkn using 2; ring)⟩
      · exact ⟨-1, 1, Or.inr rfl, Or.inl rfl, by convert hleg using 2; ring,
          Or.inr (by convert hkn using 2; ring)⟩
      · exact ⟨1, -1, Or.inl rfl, Or.inr rfl, by convert hleg using 2; ring,
          Or.inl (by convert hkn using 2; ring)⟩
      · exact ⟨1, -1, Or.inl rfl, Or.inr rfl, by convert hleg using 2; ring,
          Or.inr (by convert hkn using 2; ring)⟩
      · exact ⟨1, 1, Or.inl rfl, Or.inl rfl, by convert hleg using 2; ring,
          Or.inl (by convert hkn using 2; ring)⟩
      · exact ⟨1, 1, Or.inl rfl, Or.inl rfl, by convert hleg using 2; ring,
          Or.inr (by convert hkn using 2; ring)⟩
    case isFalse => simp at hcond
  · rintro ⟨dr, dc, hdr, hdc, hleg, hland⟩
    rcases hdr with rfl | rfl <;> rcases hdc with rfl | rfl <;> rcases hland with hl | hl
    · exact ⟨3, by norm_num, by
        rw [if_pos (by convert hleg using 2; simp [DIAGONALS]; ring)]
        simp only [List.any_eq_true, List.mem_range, beq_iff_eq]
        exact ⟨0, by norm_num, by convert hl using 2; simp [KNIGHT_ATTACK_OFFSETS]; ring⟩⟩
    · exact ⟨3, by norm_num, by
        rw [if_pos (by convert hleg using 2; simp [DIAGONALS]; ring)]
        simp only [List.any_eq_true, List.mem_range, beq_iff_eq]
        exact ⟨1, by norm_num, by convert hl using 2; simp [KNIGHT_ATTACK_OFFSETS]; ring⟩⟩
    · exact ⟨2, by norm_num, by
        rw [if_pos (by convert hleg using 2; simp [DIAGONALS]; ring)]
        simp only [List.any_eq_true, List.mem_range, beq_iff_eq]
        exact ⟨0, by norm_num, by convert hl using 2; simp [KNIGHT_ATTACK_OFFSETS]; ring⟩⟩
    · exact ⟨2, by norm_num, by
        rw [if_pos (by convert hleg using 2; simp [DIAGONALS]; ring)]
        simp only [List.any_eq_true, List.mem_range, beq_iff_eq]
        exact ⟨1, by norm_num, by convert hl using 2; simp [KNIGHT_ATTACK_OFFSETS]; ring⟩⟩
    · exact ⟨1, by norm_num, by
        rw [if_pos (by convert hleg using 2; simp [DIAGONALS]; ring)]
        simp only [List.any_eq_true, List.mem_range, beq_iff_eq]
        exact ⟨0, by norm_num, by convert hl using 2; simp [KNIGHT_ATTACK_OFFSETS]; ring⟩⟩
    · exact ⟨1, by norm_num, by
        rw [if_pos (by convert hleg using 2; simp [DIAGONALS]; ring)]
        simp only [List.any_eq_true, List.mem_range, beq_iff_eq]
        exact ⟨1, by norm_num, by convert hl using 2; simp [KNIGHT_ATTACK_OFFSETS]; ring⟩⟩
    · exact ⟨0, by norm_num, by
        rw [if_pos (by convert hleg using 2; simp [DIAGONALS]; ring)]
        simp only [List.any_eq_true, List.mem_range, beq_iff_eq]
        exact ⟨0, by norm_num, by convert hl using 2; simp [KNIGHT_ATTACK_OFFSETS]; ring⟩⟩
    · exact ⟨0, by norm_num, by
        rw [if_pos (by convert hleg using 2; simp [DIAGONALS]; ring)]
        simp only [List.any_eq_true, List.mem_range, beq_iff_eq]
        exact ⟨1, by norm_num, by convert hl using 2; simp [KNIGHT_ATTACK_OFFSETS]; ring⟩⟩

/-- C10: counterexample: `P10` is built by `set` (hash key 0); the
generated king step `m10` is applied legally and immediately undone
with a caller record whose uninitialized hash-key field holds 7, after
which `hash_key()` returns 7, not 0. -/
theorem C10_counterexample :
    m10 ∈ generateMoves P10 false ∧
    (make_move P10 m10 ⟨7, 9⟩).1 = true ∧
    P10.hashKey = 0 ∧
    ¬ (undo_move (make_move P10 m10 ⟨7, 9⟩).2 m10).hashKey = 0 := by
  decide

end XSF
